import Mathlib

/-!
Verification of the flashchain payment-channel core.

This file shallowly embeds the Rust sources of the repository:
  * `src/lightning/src/state/channel_state.rs` and `src/lightning/src/state/mod.rs`
    (namespace `StateCS`): the `ChannelState` with per-participant
    free/locked balances and HTLCs, the `StateUpdate` validation of
    `StateManager`, and the canonical `state_hash` encoding;
  * `src/lightning/src/channel/state.rs` (namespace `ChanSt`): the pure
    channel state machine with `transfer` / `create_lock` / `unlock` /
    `expire_lock` and the `verify_state` capacity check;
  * `src/lightning/src/routing/payment.rs` (namespace `Pay`): the
    `PaymentProcessor` status bookkeeping;
  * `src/lightning/src/routing/path_finding.rs` (namespace `PF`): the
    `PathFinder` search over the channel graph.

Modelling conventions:
  * `Address`, `H256` and `U256` values are `Nat`.  The ethers `U256`
    arithmetic panics (rather than wraps) on overflow, and every
    subtraction in the embedded operations is guarded by the checks the
    source performs, so plain `Nat` arithmetic is faithful there.  The
    `u64` cost arithmetic of the path finder wraps in release builds and
    is embedded with explicit `% 2^64`.
  * Rust `HashMap`s are association lists (`List (Nat × V)`); the
    operations used by the source (`get`, `get_mut`, `insert`,
    `entry().or_insert()`, `remove`, `contains_key`) are `alookup`,
    `aset`, `ainsert`, `entryAdd`, `aremove`, `acontains`.
  * The external keccak-256 primitive (from the `sha3` crate) is a
    parameter `keccak : List Nat → Nat` of the functions that call it.
  * Error message strings produced with `format!` interpolation in the
    source are fixed strings here; only the error constructor matters.
  * Mutating `&mut self` methods become functions returning the new
    state paired with the `Result`; when the source returns an error
    before any field was written, the unchanged input state is returned.
  * The blocking persistence collaborator of `StateManager` is a
    boolean parameter `persistOk` (true = `persist_state_update`
    succeeded), and the `tokio::mpsc` status notification send of the
    `PaymentProcessor` is a boolean parameter `sendOk`.
  * The `f64` channel reliability of the path finder is embedded as a
    rational; the `as u64` float-to-integer cast is the saturating
    truncation `relCost`.
-/

namespace Flashchain

/-- Big-endian byte encoding of `n` in `w` bytes, as `to_be_bytes` /
`as_bytes` produce on the `U256`/`H256`/`u64`/`Address` types. -/
def beBytes (w n : Nat) : List Nat :=
  (List.range w).map (fun i => n / 256 ^ (w - 1 - i) % 256)

/-- `HashMap::get`. -/
def alookup {V : Type} : List (Nat × V) → Nat → Option V
  | [], _ => none
  | (k2, v) :: rest, k => if k2 = k then some v else alookup rest k

/-- `HashMap::contains_key`. -/
def acontains {V : Type} (m : List (Nat × V)) (k : Nat) : Bool :=
  (alookup m k).isSome

/-- Overwrite the value at an existing key (a `get_mut` update). -/
def aset {V : Type} (m : List (Nat × V)) (k : Nat) (v : V) : List (Nat × V) :=
  m.map (fun p => if p.1 = k then (k, v) else p)

/-- `HashMap::insert`: replace when present, append when absent. -/
def ainsert {V : Type} (m : List (Nat × V)) (k : Nat) (v : V) : List (Nat × V) :=
  if acontains m k then aset m k v else m ++ [(k, v)]

/-- `HashMap::remove` / `retain`. -/
def aremove {V : Type} (m : List (Nat × V)) (k : Nat) : List (Nat × V) :=
  m.filter (fun p => p.1 != k)

/-- `*map.entry(k).or_insert(0) += d` on a `Nat`-valued map. -/
def entryAdd (m : List (Nat × Nat)) (k d : Nat) : List (Nat × Nat) :=
  match alookup m k with
  | some v => aset m k (v + d)
  | none => m ++ [(k, d)]

/-- Sum of `f` over the values of a map. -/
def msum {V : Type} (f : V → Nat) (m : List (Nat × V)) : Nat :=
  (m.map (fun p => f p.2)).sum

/-- Stable insertion of `x` into a list sorted by `key` (placed after
equal keys, as Rust's stable `sort_by_key` keeps equal elements). -/
def insertSorted {α : Type} (key : α → Nat) (x : α) : List α → List α
  | [] => [x]
  | y :: ys => if key x < key y then x :: y :: ys else y :: insertSorted key x ys

/-- Stable sort by a `Nat` key (`Vec::sort_by_key`). -/
def sortByKey {α : Type} (key : α → Nat) (l : List α) : List α :=
  l.foldr (insertSorted key) []

end Flashchain

namespace StateCS

open Flashchain

/-- `StateError` of `src/lightning/src/state/mod.rs`. -/
inductive StateError : Type
  | InvalidTransition (msg : String)
  | NotFound (msg : String)
  | Corruption (msg : String)
  | PersistenceError (msg : String)
  | ConcurrentModification (msg : String)
deriving DecidableEq

/-- `HtlcStatus` of `src/lightning/src/state/channel_state.rs`. -/
inductive HtlcStatus : Type
  | Pending
  | Fulfilled
  | Failed
  | Expired
deriving DecidableEq

/-- `ChannelStatus` of `src/lightning/src/state/channel_state.rs`. -/
inductive ChannelStatus : Type
  | Created
  | Active
  | Closing
  | Closed
  | Disputed
deriving DecidableEq

/-- `Balance`: free `amount`, `locked`, and ids of pending HTLCs. -/
structure Balance : Type where
  amount : Nat
  locked : Nat
  pending_htlcs : List Nat
deriving DecidableEq

/-- `Htlc` of `src/lightning/src/state/channel_state.rs`. -/
structure Htlc : Type where
  id : Nat
  sender : Nat
  receiver : Nat
  amount : Nat
  hash_lock : Nat
  timeout : Nat
  status : HtlcStatus
deriving DecidableEq

/-- `ChannelState` of `src/lightning/src/state/channel_state.rs`. -/
structure ChannelState : Type where
  channel_id : Nat
  participants : List Nat
  capacity : Nat
  balances : List (Nat × Balance)
  htlcs : List (Nat × Htlc)
  status : ChannelStatus
  sequence : Nat
  dispute_timeout : Nat
  last_update : Nat
deriving DecidableEq

/-- `StateUpdate` of `src/lightning/src/state/mod.rs`; `signatures` maps
addresses to raw signature bytes. -/
structure StateUpdate : Type where
  channel_id : Nat
  sequence : Nat
  timestamp : Nat
  previous_state : Nat
  new_state : Nat
  signatures : List (Nat × List Nat)
deriving DecidableEq

/-- `ChannelState::generate_htlc_id`: keccak over
sender ‖ receiver ‖ amount_be ‖ hash_lock bytes. -/
def generate_htlc_id (keccak : List Nat → Nat) (sender receiver amount hash_lock : Nat) : Nat :=
  keccak (beBytes 20 sender ++ beBytes 20 receiver ++ beBytes 32 amount ++ beBytes 32 hash_lock)

/-- `ChannelState::verify_preimage`: compares `keccak256(preimage)` with
the stored hash lock. -/
def verify_preimage (keccak : List Nat → Nat) (hash_lock preimage : Nat) : Bool :=
  keccak (beBytes 32 preimage) == hash_lock

/-- `ChannelState::verify_signature` — the source is a stub that ignores
all of its arguments and returns `true`. -/
def verify_signature (_s : ChannelState) (_signer : Nat) (_state : Nat)
    (_signature : List Nat) : Bool :=
  true

/-- `ChannelState::is_valid_transition` — stub returning `true`. -/
def is_valid_transition (_s : ChannelState) (_update : StateUpdate) : Bool :=
  true

/-- `ChannelState::create_htlc`.  Checks participants and the sender's
free balance, then moves `amount` from free to locked and inserts a
`Pending` HTLC.  The sequence number is not touched. -/
def create_htlc (keccak : List Nat → Nat) (s : ChannelState)
    (sender receiver amount hash_lock timeout : Nat) :
    ChannelState × Except StateError Nat :=
  if sender ∉ s.participants ∨ receiver ∉ s.participants then
    (s, .error (.InvalidTransition "Invalid participants"))
  else
    match alookup s.balances sender with
    | none => (s, .error (.NotFound "Sender balance not found"))
    | some sb =>
      if sb.amount < amount then
        (s, .error (.InvalidTransition "Insufficient balance"))
      else
        let htlc_id := generate_htlc_id keccak sender receiver amount hash_lock
        let htlc : Htlc := { id := htlc_id, sender := sender, receiver := receiver, amount := amount, hash_lock := hash_lock, timeout := timeout, status := .Pending }
        let balances2 := aset s.balances sender { amount := sb.amount - amount, locked := sb.locked + amount, pending_htlcs := sb.pending_htlcs ++ [htlc_id] }
        ({ s with balances := balances2, htlcs := ainsert s.htlcs htlc_id htlc },
         .ok htlc_id)

/-- `ChannelState::fulfill_htlc`.  Requires the HTLC to exist, be
`Pending`, and the preimage to hash to the lock; then marks it
`Fulfilled`, releases the sender's locked amount and credits the
receiver's free balance. -/
def fulfill_htlc (keccak : List Nat → Nat) (s : ChannelState) (htlc_id preimage : Nat) :
    ChannelState × Except StateError Unit :=
  match alookup s.htlcs htlc_id with
  | none => (s, .error (.NotFound "HTLC not found"))
  | some htlc =>
    if htlc.status ≠ .Pending then
      (s, .error (.InvalidTransition "HTLC not pending"))
    else if ¬ verify_preimage keccak htlc.hash_lock preimage then
      (s, .error (.InvalidTransition "Invalid preimage"))
    else
      let htlcs2 := aset s.htlcs htlc_id { htlc with status := .Fulfilled }
      let balances1 :=
        match alookup s.balances htlc.sender with
        | some sb => aset s.balances htlc.sender { sb with locked := sb.locked - htlc.amount, pending_htlcs := sb.pending_htlcs.filter (fun i => i != htlc_id) }
        | none => s.balances
      let balances2 :=
        match alookup balances1 htlc.receiver with
        | some rb => aset balances1 htlc.receiver { rb with amount := rb.amount + htlc.amount }
        | none => balances1
      ({ s with htlcs := htlcs2, balances := balances2 }, .ok ())

/-- `ChannelState::apply_update`: checks the sequence is current+1 and
the (stubbed) transition validity, then sets `sequence` and
`last_update`. -/
def apply_update (s : ChannelState) (update : StateUpdate) :
    ChannelState × Except StateError Unit :=
  if update.sequence ≠ s.sequence + 1 then
    (s, .error (.InvalidTransition "Invalid sequence number"))
  else if ¬ is_valid_transition s update then
    (s, .error (.InvalidTransition "Invalid state transition"))
  else
    ({ s with sequence := update.sequence, last_update := update.timestamp }, .ok ())

/-- The byte string hashed by `ChannelState::state_hash`: the sequence as
big-endian u64, the balances sorted by address (address ‖ free ‖ locked),
then the HTLC values sorted by id (id ‖ amount ‖ hash_lock).  The HTLC
`timeout`, `sender`, `receiver` and `status` fields are not encoded. -/
def encodeState (s : ChannelState) : List Nat :=
  beBytes 8 s.sequence
    ++ ((sortByKey (fun p => p.1) s.balances).map
        (fun p => beBytes 20 p.1 ++ beBytes 32 p.2.amount ++ beBytes 32 p.2.locked)).flatten
    ++ ((sortByKey (fun h => h.id) (s.htlcs.map (fun p => p.2))).map
        (fun h => beBytes 32 h.id ++ beBytes 32 h.amount ++ beBytes 32 h.hash_lock)).flatten

/-- `ChannelState::state_hash`. -/
def state_hash (keccak : List Nat → Nat) (s : ChannelState) : Nat :=
  keccak (encodeState s)

/-- `StateManager::verify_signatures`: every participant of the channel
must appear in the update's signature map, and every entry of the map
must pass `verify_signature` (the stub). -/
def verify_signatures (states : List (Nat × ChannelState)) (update : StateUpdate) :
    Except StateError Bool :=
  match alookup states update.channel_id with
  | none => .error (.NotFound "Channel not found")
  | some cur =>
    .ok (cur.participants.all (fun p => acontains update.signatures p)
      && update.signatures.all (fun e => verify_signature cur e.1 update.new_state e.2))

/-- `StateManager::verify_state_update`: sequence must be current+1 and
`verify_signatures` must hold. -/
def verify_state_update (states : List (Nat × ChannelState)) (update : StateUpdate) :
    Except StateError Unit :=
  match alookup states update.channel_id with
  | none => .error (.NotFound "Channel not found")
  | some cur =>
    if update.sequence ≠ cur.sequence + 1 then
      .error (.InvalidTransition "Invalid sequence number")
    else
      match verify_signatures states update with
      | .error e => .error e
      | .ok b =>
        if ¬ b then .error (.InvalidTransition "Invalid signatures") else .ok ()

/-- `StateManager::update_channel_state`.  Verifies, then applies the
update to the in-memory map, then persists; `persistOk` is the outcome
of `persist_state_update`.  Note the in-memory state is written before
persistence is attempted. -/
def update_channel_state (states : List (Nat × ChannelState)) (channel_id : Nat)
    (update : StateUpdate) (persistOk : Bool) :
    List (Nat × ChannelState) × Except StateError Unit :=
  match verify_state_update states update with
  | .error e => (states, .error e)
  | .ok _ =>
    match alookup states channel_id with
    | none => (states, .error (.NotFound "Channel not found"))
    | some cur =>
      let applied := apply_update cur update
      let states2 := aset states channel_id applied.1
      match applied.2 with
      | .error e => (states2, .error e)
      | .ok _ =>
        if persistOk then (states2, .ok ())
        else (states2, .error (.PersistenceError "persist_state_update failed"))

/-- `StateManager::get_channel_state`: clone of the stored state. -/
def get_channel_state (states : List (Nat × ChannelState)) (channel_id : Nat) :
    Except StateError ChannelState :=
  match alookup states channel_id with
  | none => .error (.NotFound "Channel not found")
  | some s => .ok s

end StateCS

namespace ChanSt

open Flashchain

/-- `StateError` of `src/lightning/src/channel/state.rs`. -/
inductive CStateError : Type
  | InvalidBalance
  | InvalidTransition (msg : String)
  | MissingParticipant (addr : Nat)
  | InvalidLock (msg : String)
  | LockExists (id : Nat)
deriving DecidableEq

/-- `TimeLock` of `src/lightning/src/channel/state.rs`. -/
structure TimeLock : Type where
  lock_id : Nat
  amount : Nat
  expiration_height : Nat
  recipient : Nat
  secret_hash : Nat
deriving DecidableEq

/-- `ChannelState` of `src/lightning/src/channel/state.rs`: free
balances per address, time locks, and a global `total_locked`. -/
structure CChannelState : Type where
  balances : List (Nat × Nat)
  locks : List (Nat × TimeLock)
  merkle_root : Nat
  sequence_number : Nat
  total_locked : Nat
deriving DecidableEq

/-- `ChannelState::new`: rejects an all-zero initial allocation. -/
def newState (initial_balances : List (Nat × Nat)) : Except CStateError CChannelState :=
  if msum id initial_balances = 0 then .error .InvalidBalance
  else .ok { balances := initial_balances, locks := [], merkle_root := 0, sequence_number := 0, total_locked := 0 }

/-- `ChannelState::update_merkle_root` — placeholder that stores zero. -/
def update_merkle_root (s : CChannelState) : CChannelState :=
  { s with merkle_root := 0 }

/-- `ChannelState::generate_lock_id` — placeholder returning `H256::zero()`. -/
def generate_lock_id (_s : CChannelState) (_sender _recipient _amount _secret_hash : Nat) : Nat :=
  0

/-- `ChannelState::verify_secret` — placeholder returning `true`. -/
def verify_secret (_s : CChannelState) (_secret_hash _secret : Nat) : Bool :=
  true

/-- `ChannelState::find_lock_sender` — placeholder returning
`Address::zero()`. -/
def find_lock_sender (_s : CChannelState) (_lock_id : Nat) : Except CStateError Nat :=
  .ok 0

/-- `ChannelState::transfer`: moves `amount` between free balances and
bumps the sequence number. -/
def transfer (s : CChannelState) (fromA toA amount : Nat) :
    CChannelState × Except CStateError Unit :=
  match alookup s.balances fromA with
  | none => (s, .error (.MissingParticipant fromA))
  | some fb =>
    if fb < amount then (s, .error .InvalidBalance)
    else
      let b1 := aset s.balances fromA (fb - amount)
      let b2 := entryAdd b1 toA amount
      (update_merkle_root { s with balances := b2, sequence_number := s.sequence_number + 1 }, .ok ())

/-- `ChannelState::create_lock`: moves `amount` out of the sender's free
balance into `total_locked` and records the `TimeLock`. -/
def create_lock (s : CChannelState) (sender recipient amount expiration_height secret_hash : Nat) :
    CChannelState × Except CStateError Nat :=
  match alookup s.balances sender with
  | none => (s, .error (.MissingParticipant sender))
  | some sb =>
    if sb < amount then (s, .error .InvalidBalance)
    else
      let lock_id := generate_lock_id s sender recipient amount secret_hash
      if acontains s.locks lock_id then (s, .error (.LockExists lock_id))
      else
        let lock : TimeLock := { lock_id := lock_id, amount := amount, expiration_height := expiration_height, recipient := recipient, secret_hash := secret_hash }
        let b1 := aset s.balances sender (sb - amount)
        (update_merkle_root { s with balances := b1, total_locked := s.total_locked + amount, locks := ainsert s.locks lock_id lock, sequence_number := s.sequence_number + 1 }, .ok lock_id)

/-- `ChannelState::unlock`: releases a lock to its recipient (the secret
check is the stub `verify_secret`). -/
def unlock (s : CChannelState) (lock_id secret : Nat) :
    CChannelState × Except CStateError Unit :=
  match alookup s.locks lock_id with
  | none => (s, .error (.InvalidLock "Lock not found"))
  | some lock =>
    if ¬ verify_secret s lock.secret_hash secret then
      (s, .error (.InvalidLock "Invalid secret"))
    else
      let b1 := entryAdd s.balances lock.recipient lock.amount
      (update_merkle_root { s with balances := b1, total_locked := s.total_locked - lock.amount, locks := aremove s.locks lock_id, sequence_number := s.sequence_number + 1 }, .ok ())

/-- `ChannelState::expire_lock`: after the expiration height, returns
the locked amount to the address reported by `find_lock_sender` (the
placeholder, i.e. address zero) and removes the lock. -/
def expire_lock (s : CChannelState) (lock_id current_height : Nat) :
    CChannelState × Except CStateError Unit :=
  match alookup s.locks lock_id with
  | none => (s, .error (.InvalidLock "Lock not found"))
  | some lock =>
    if current_height < lock.expiration_height then
      (s, .error (.InvalidLock "Lock not expired"))
    else
      match find_lock_sender s lock_id with
      | .error e => (s, .error e)
      | .ok sender =>
        let b1 := entryAdd s.balances sender lock.amount
        (update_merkle_root { s with balances := b1, total_locked := s.total_locked - lock.amount, locks := aremove s.locks lock_id, sequence_number := s.sequence_number + 1 }, .ok ())

/-- `ChannelState::verify_state`: total free balances plus
`total_locked` must not exceed the capacity. -/
def verify_state (s : CChannelState) (capacity : Nat) : Except CStateError Unit :=
  if capacity < msum id s.balances + s.total_locked then .error .InvalidBalance else .ok ()

/-- One operation of the channel state machine. -/
inductive COp : Type
  | transferOp (fromA toA amount : Nat)
  | createLockOp (sender recipient amount expiration_height secret_hash : Nat)
  | unlockOp (lock_id secret : Nat)
  | expireLockOp (lock_id current_height : Nat)
deriving DecidableEq

/-- Apply one operation, recording whether it succeeded. -/
def stepApp (s : CChannelState) : COp → CChannelState × Bool
  | .transferOp f t a => let r := transfer s f t a; (r.1, r.2.toBool)
  | .createLockOp se re a e h => let r := create_lock s se re a e h; (r.1, r.2.toBool)
  | .unlockOp l sec => let r := unlock s l sec; (r.1, r.2.toBool)
  | .expireLockOp l h => let r := expire_lock s l h; (r.1, r.2.toBool)

/-- `StepOk s op s2`: the operation succeeds on `s` and produces `s2`. -/
def StepOk (s : CChannelState) (op : COp) (s2 : CChannelState) : Prop :=
  stepApp s op = (s2, true)

/-- States reachable by sequences of successful operations. -/
inductive Reach : CChannelState → CChannelState → Prop
  | refl (s : CChannelState) : Reach s s
  | step {a b c : CChannelState} {op : COp} : Reach a b → StepOk b op c → Reach a c

end ChanSt

namespace Pay

open Flashchain

/-- `RoutingError` of `src/lightning/src/routing/mod.rs`. -/
inductive RoutingError : Type
  | NoRoute (msg : String)
  | InsufficientCapacity (msg : String)
  | InvalidRoute (msg : String)
  | PaymentFailed (msg : String)
  | ChannelError (msg : String)
  | Timeout (msg : String)
deriving DecidableEq

/-- `ChannelHop` of `src/lightning/src/routing/mod.rs`. -/
structure ChannelHop : Type where
  channel_id : Nat
  source : Nat
  target : Nat
  amount : Nat
  fee : Nat
  timelock : Nat
deriving DecidableEq

/-- `Route` of `src/lightning/src/routing/mod.rs`. -/
structure Route : Type where
  path : List Nat
  channels : List ChannelHop
  total_amount : Nat
  total_fees : Nat
  total_timelock : Nat
deriving DecidableEq

/-- `PaymentStatus` of `src/lightning/src/routing/payment.rs`. -/
inductive PaymentStatus : Type
  | Pending
  | InFlight
  | Success
  | Failed
  | TimedOut
deriving DecidableEq

/-- `PaymentInfo` of `src/lightning/src/routing/payment.rs`. -/
structure PaymentInfo : Type where
  route : Route
  payment_hash : Nat
  payment_secret : Nat
  amount : Nat
  timestamp : Nat
deriving DecidableEq

/-- `PaymentResult` of `src/lightning/src/routing/payment.rs`. -/
structure PaymentResult : Type where
  status : PaymentStatus
  preimage : Option Nat
  failure_reason : Option String
  completed_at : Option Nat
  fees_paid : Nat
deriving DecidableEq

/-- `HtlcInfo` of `src/lightning/src/routing/payment.rs`. -/
structure HtlcInfo : Type where
  channel_id : Nat
  amount : Nat
  expiry : Nat
  hash : Nat
deriving DecidableEq

/-- The four maps owned by `PaymentProcessor`. -/
structure Processor : Type where
  active_payments : List (Nat × PaymentInfo)
  payment_statuses : List (Nat × PaymentStatus)
  htlcs : List (Nat × List HtlcInfo)
  results : List (Nat × PaymentResult)
deriving DecidableEq

/-- `PaymentProcessor::new`. -/
def newProcessor : Processor :=
  { active_payments := [], payment_statuses := [], htlcs := [], results := [] }

/-- `PaymentProcessor::init_payment`: rejects a duplicate hash, else
records the payment as `Pending` with an empty HTLC list. -/
def init_payment (p : Processor) (info : PaymentInfo) : Processor × Except RoutingError Unit :=
  if acontains p.active_payments info.payment_hash then
    (p, .error (.PaymentFailed "Payment already in progress"))
  else
    ({ p with active_payments := ainsert p.active_payments info.payment_hash info, payment_statuses := ainsert p.payment_statuses info.payment_hash .Pending, htlcs := ainsert p.htlcs info.payment_hash [] }, .ok ())

/-- `PaymentProcessor::process_hop`: records the hop's HTLC and marks
the payment `InFlight`.  `now` stands for `current_timestamp()`;
`sendOk` is the outcome of the status-channel send. -/
def process_hop (p : Processor) (payment_hash hop_index now : Nat) (sendOk : Bool) :
    Processor × Except RoutingError Unit :=
  match alookup p.active_payments payment_hash with
  | none => (p, .error (.PaymentFailed "Payment not found"))
  | some info =>
    if info.route.channels.length ≤ hop_index then
      (p, .error (.PaymentFailed "Invalid hop index"))
    else
      let hop := info.route.channels.getD hop_index { channel_id := 0, source := 0, target := 0, amount := 0, fee := 0, timelock := 0 }
      let htlc : HtlcInfo := { channel_id := hop.channel_id, amount := hop.amount, expiry := now + hop.timelock, hash := payment_hash }
      match alookup p.htlcs payment_hash with
      | none => (p, .error (.PaymentFailed "Payment not found"))
      | some lst =>
        let p2 := { p with htlcs := aset p.htlcs payment_hash (lst ++ [htlc]) }
        let p3 := { p2 with payment_statuses := ainsert p2.payment_statuses payment_hash .InFlight }
        if sendOk then (p3, .ok ())
        else (p3, .error (.PaymentFailed "status channel closed"))

/-- `PaymentProcessor::complete_payment`.  Note the `Success` status is
written before the payment is looked up in `active_payments`. -/
def complete_payment (p : Processor) (payment_hash now : Nat) (sendOk : Bool) :
    Processor × Except RoutingError Unit :=
  let p1 := { p with payment_statuses := ainsert p.payment_statuses payment_hash .Success }
  match alookup p1.active_payments payment_hash with
  | none => (p1, .error (.PaymentFailed "Payment not found"))
  | some info =>
    let p2 := { p1 with active_payments := aremove p1.active_payments payment_hash }
    let p3 := { p2 with results := ainsert p2.results payment_hash { status := .Success, preimage := none, failure_reason := none, completed_at := some now, fees_paid := info.route.total_fees } }
    if sendOk then (p3, .ok ())
    else (p3, .error (.PaymentFailed "status channel closed"))

/-- `PaymentProcessor::fail_payment`.  As in `complete_payment`, the
`Failed` status is written before the active-payment lookup. -/
def fail_payment (p : Processor) (payment_hash : Nat) (reason : String) (now : Nat) (sendOk : Bool) :
    Processor × Except RoutingError Unit :=
  let p1 := { p with payment_statuses := ainsert p.payment_statuses payment_hash .Failed }
  match alookup p1.active_payments payment_hash with
  | none => (p1, .error (.PaymentFailed "Payment not found"))
  | some _info =>
    let p2 := { p1 with active_payments := aremove p1.active_payments payment_hash }
    let p3 := { p2 with results := ainsert p2.results payment_hash { status := .Failed, preimage := none, failure_reason := some reason, completed_at := some now, fees_paid := 0 } }
    if sendOk then (p3, .ok ())
    else (p3, .error (.PaymentFailed "status channel closed"))

/-- Body of the for-loop of `cleanup_timed_out_payments`: mark each
timed-out hash `TimedOut`, drop it from the active map, send the
notification (failure aborts the loop mid-way). -/
def cleanupLoop (p : Processor) (hashes : List Nat) (sendOk : Bool) :
    Processor × Except RoutingError Unit :=
  match hashes with
  | [] => (p, .ok ())
  | h :: rest =>
    let p1 := { p with payment_statuses := ainsert p.payment_statuses h .TimedOut, active_payments := aremove p.active_payments h }
    if sendOk then cleanupLoop p1 rest sendOk
    else (p1, .error (.PaymentFailed "status channel closed"))

/-- `PaymentProcessor::cleanup_timed_out_payments`: payments active for
more than 300 seconds are moved to `TimedOut`. -/
def cleanup_timed_out_payments (p : Processor) (now : Nat) (sendOk : Bool) :
    Processor × Except RoutingError Unit :=
  let timed_out := (p.active_payments.filter (fun e => decide (e.2.timestamp + 300 < now))).map (fun e => e.1)
  cleanupLoop p timed_out sendOk

/-- `PaymentProcessor::get_payment_status`. -/
def get_payment_status (p : Processor) (payment_hash : Nat) :
    Except RoutingError PaymentStatus :=
  match alookup p.payment_statuses payment_hash with
  | none => .error (.PaymentFailed "Payment not found")
  | some st => .ok st

end Pay

namespace PF

open Flashchain

/-- The u64 modulus: release-build Rust wraps u64 arithmetic. -/
def W : Nat := 2 ^ 64

/-- `ChannelInfo` of `src/lightning/src/routing/path_finding.rs`; the
`f64` reliability is embedded as a rational. -/
structure ChannelInfo : Type where
  source : Nat
  target : Nat
  capacity : Nat
  fee_rate : Nat
  timelock_delta : Nat
  reliability : ℚ
deriving DecidableEq

/-- `PathState` of `src/lightning/src/routing/path_finding.rs`. -/
structure PathState : Type where
  node : Nat
  cost : Nat
  capacity : Nat
  path : List Nat
deriving DecidableEq

/-- The two graph indexes of `PathFinder`: `nodes` maps an address to
its channel ids, `channels` maps a channel id to its `ChannelInfo`. -/
structure Graph : Type where
  nodes : List (Nat × List Nat)
  channels : List (Nat × ChannelInfo)
deriving DecidableEq

/-- `RoutingPolicy` of `src/lightning/src/routing/mod.rs`. -/
structure Policy : Type where
  max_hops : Nat
  max_timelock : Nat
  max_fee_rate : Nat
  min_channel_capacity : Nat
deriving DecidableEq

/-- `((1.0 - reliability) * 1000.0) as u64`: the float-to-integer cast
truncates toward zero and saturates at the ends. -/
def relCost (r : ℚ) : Nat :=
  min (W - 1) (((1 - r) * 1000 : ℚ)).floor.toNat

/-- The wrapped u64 cost of one channel while carrying `amount`:
`fee = (amount * fee_rate) / 1_000_000` (the product wraps), plus
`timelock_delta * 10` (wrapping), plus the reliability cost. -/
def edgeCostW (amount : Nat) (c : ChannelInfo) : Nat :=
  (amount * c.fee_rate % W) / 1000000 + c.timelock_delta * 10 % W + relCost c.reliability

/-- The loop body of `calculate_path_cost`: `total_cost += fee +
timelock_cost + reliability_cost` in wrapping u64 arithmetic; channel
ids missing from the map are skipped. -/
def calcFrom (g : List (Nat × ChannelInfo)) (amount : Nat) : List Nat → Nat → Nat
  | [], total => total
  | cid :: rest, total =>
    match alookup g cid with
    | none => calcFrom g amount rest total
    | some c => calcFrom g amount rest ((total + edgeCostW amount c) % W)

/-- `PathFinder::calculate_path_cost`. -/
def calculate_path_cost (g : List (Nat × ChannelInfo)) (amount : Nat) (path : List Nat) : Nat :=
  calcFrom g amount path 0

/-- The exact (non-wrapping) cost of one channel, as the specification's
formula `amount * fee_rate / 1_000_000 + 10 * timelock_delta +
1000 * (1 - reliability)` with the reliability term truncated. -/
def edgeCost (amount : Nat) (c : ChannelInfo) : Nat :=
  amount * c.fee_rate / 1000000 + c.timelock_delta * 10 + relCost c.reliability

/-- The exact total cost of a path (missing channel ids contribute 0). -/
def trueCost (g : List (Nat × ChannelInfo)) (amount : Nat) : List Nat → Nat
  | [] => 0
  | cid :: rest =>
    match alookup g cid with
    | none => trueCost g amount rest
    | some c => edgeCost amount c + trueCost g amount rest

/-- Popping the minimum-cost element of the `BinaryHeap` (the `Ord` on
`PathState` is reversed, so the heap is a min-heap on `cost`; ties are
resolved to the leftmost element here). -/
def popMin : List PathState → Option (PathState × List PathState)
  | [] => none
  | x :: xs =>
    match popMin xs with
    | none => some (x, [])
    | some (m, rest) => if x.cost ≤ m.cost then some (x, xs) else some (m, x :: rest)

/-- The per-channel body of the expansion loop of `find_paths`: skip the
channel if its capacity is below the carried amount, if the path is
already at `max_hops`, or if the far endpoint is visited; otherwise push
the extended path with its recomputed total cost. -/
def expandChannel (g : Graph) (maxHops : Nat) (visited : List Nat) (cur : PathState)
    (cid : Nat) : List PathState :=
  match alookup g.channels cid with
  | none => []
  | some c =>
    if c.capacity < cur.capacity then []
    else if maxHops ≤ cur.path.length then []
    else
      let next := if c.source = cur.node then c.target else c.source
      if next ∈ visited then []
      else
        let newPath := cur.path ++ [cid]
        [{ node := next, cost := calculate_path_cost g.channels cur.capacity newPath, capacity := cur.capacity, path := newPath }]

/-- Expansion of one popped state over the channel list of its node. -/
def expand (g : Graph) (maxHops : Nat) (visited : List Nat) (cur : PathState) :
    List PathState :=
  match alookup g.nodes cur.node with
  | none => []
  | some chans => (chans.map (expandChannel g maxHops visited cur)).flatten

/-- The return at the end of the search: `NoRoute` when no path was
collected, otherwise the collected paths. -/
def finish (paths : List (List Nat)) : Except Pay.RoutingError (List (List Nat)) :=
  if paths.isEmpty then .error (.NoRoute "No valid paths found") else .ok paths

/-- The main loop of `PathFinder::find_paths`, with explicit fuel (the
source loop terminates; every property proved below holds for every
fuel).  Pops the cheapest state; a state at the target contributes its
path (stopping at 3 paths); a visited state is skipped; otherwise the
node is marked visited and its expansions are pushed. -/
def loop (g : Graph) (target maxHops : Nat) :
    Nat → List Nat → List (List Nat) → List PathState → Except Pay.RoutingError (List (List Nat))
  | 0, _, paths, _ => finish paths
  | fuel + 1, visited, paths, queue =>
    match popMin queue with
    | none => finish paths
    | some (cur, rest) =>
      if cur.node = target then
        let paths2 := paths ++ [cur.path]
        if 3 ≤ paths2.length then finish paths2
        else loop g target maxHops fuel visited paths2 rest
      else if cur.node ∈ visited then loop g target maxHops fuel visited paths rest
      else loop g target maxHops fuel (cur.node :: visited) paths (rest ++ expand g maxHops (cur.node :: visited) cur)

end PF

namespace PF

/-- `PathFinder::find_paths` with `hints = None` (the claims quantify
over graph, source, target, amount and policy; the unused `channels`
argument of the Rust signature is dropped).  The search starts from a
single state at `source` carrying `amount`. -/
def find_paths (g : Graph) (source target amount : Nat) (policy : Policy) (fuel : Nat) :
    Except Pay.RoutingError (List (List Nat)) :=
  loop g target policy.max_hops fuel [] [] [{ node := source, cost := 0, capacity := amount, path := [] }]

/-- A channel walk from `source`: each step resolves its channel id and
moves to the far endpoint exactly as the search does. -/
inductive Chain (g : List (Nat × ChannelInfo)) (source : Nat) : List Nat → Nat → Prop
  | nil : Chain g source [] source
  | snoc {p : List Nat} {n cid : Nat} {c : ChannelInfo} :
      Chain g source p n → Flashchain.alookup g cid = some c →
      Chain g source (p ++ [cid]) (if c.source = n then c.target else c.source)

end PF


/-! Concrete instances used by the evaluation theorems and witnesses. -/

namespace Samples

open Flashchain

/-- A fixed (arbitrary) hash function standing in for keccak-256. -/
def kZero : List Nat → Nat := fun _ => 0

/-- Another hash function, summing the bytes, for preimage round-trips:
`kSum (beBytes 32 n) = n` for small `n`. -/
def kSum : List Nat → Nat := List.sum

/-- A two-participant channel state with sequence 0. -/
def stA : StateCS.ChannelState :=
  { channel_id := 7, participants := [1, 2], capacity := 1000, balances := [], htlcs := [], status := .Created, sequence := 0, dispute_timeout := 1008, last_update := 0 }

/-- The `StateManager` map holding only `stA` under id 7. -/
def statesA : List (Nat × StateCS.ChannelState) := [(7, stA)]

/-- A sequence-1 update for `stA` whose signature map covers both
participants with arbitrary garbage bytes (one of them empty). -/
def updA : StateCS.StateUpdate :=
  { channel_id := 7, sequence := 1, timestamp := 99, previous_state := 0, new_state := 0, signatures := [(1, [1, 2, 3]), (2, [])] }

/-- A funded two-participant channel state (sequence 0). -/
def stB : StateCS.ChannelState :=
  { channel_id := 8, participants := [1, 2], capacity := 1000, balances := [(1, { amount := 100, locked := 0, pending_htlcs := [] }), (2, { amount := 0, locked := 0, pending_htlcs := [] })], htlcs := [], status := .Active, sequence := 0, dispute_timeout := 1008, last_update := 0 }

/-- A channel state holding a pending HTLC with id 4, hash lock 9,
sender 1, receiver 2, amount 3. -/
def st3 : StateCS.ChannelState :=
  { channel_id := 9, participants := [1, 2], capacity := 1000, balances := [(1, { amount := 10, locked := 5, pending_htlcs := [4] }), (2, { amount := 20, locked := 0, pending_htlcs := [] })], htlcs := [(4, { id := 4, sender := 1, receiver := 2, amount := 3, hash_lock := 9, timeout := 50, status := .Pending })], status := .Active, sequence := 0, dispute_timeout := 1008, last_update := 0 }

/-- Two states that differ only in the `timeout` of their single HTLC. -/
def st6a : StateCS.ChannelState :=
  { channel_id := 5, participants := [], capacity := 0, balances := [], htlcs := [(5, { id := 5, sender := 1, receiver := 2, amount := 3, hash_lock := 4, timeout := 100, status := .Pending })], status := .Active, sequence := 0, dispute_timeout := 1008, last_update := 0 }

/-- `st6a` with the HTLC timeout changed from 100 to 200. -/
def st6b : StateCS.ChannelState :=
  { st6a with htlcs := [(5, { id := 5, sender := 1, receiver := 2, amount := 3, hash_lock := 4, timeout := 200, status := .Pending })] }

/-- Two states that differ only in the `sender` of their single HTLC. -/
def st6c : StateCS.ChannelState :=
  { st6a with htlcs := [(5, { id := 5, sender := 1, receiver := 2, amount := 3, hash_lock := 4, timeout := 100, status := .Fulfilled })] }

/-- A channel/state.rs state: one balance of 100 at address 5, and one
pending lock of 40 (id 0, recipient 7, expiring at height 10). -/
def s7 : ChanSt.CChannelState :=
  { balances := [(5, 100)], locks := [(0, { lock_id := 0, amount := 40, expiration_height := 10, recipient := 7, secret_hash := 3 })], merkle_root := 0, sequence_number := 0, total_locked := 40 }

/-- A small channel/state.rs state for step witnesses. -/
def sC5 : ChanSt.CChannelState :=
  { balances := [(1, 5)], locks := [], merkle_root := 3, sequence_number := 0, total_locked := 0 }

/-- A minimal valid initial channel/state.rs state. -/
def s4 : ChanSt.CChannelState :=
  { balances := [(1, 4)], locks := [], merkle_root := 0, sequence_number := 0, total_locked := 0 }

/-- An empty route whose fee total is 10. -/
def route0 : Pay.Route :=
  { path := [], channels := [], total_amount := 1000, total_fees := 10, total_timelock := 144 }

/-- A payment over `route0` with hash 11. -/
def info0 : Pay.PaymentInfo :=
  { route := route0, payment_hash := 11, payment_secret := 22, amount := 1000, timestamp := 0 }

/-- The processor after `init_payment info0`. -/
def p8a : Pay.Processor := (Pay.init_payment Pay.newProcessor info0).1

/-- `p8a` after `complete_payment` of hash 11 (now terminal `Success`). -/
def p8b : Pay.Processor := (Pay.complete_payment p8a 11 500 true).1

/-- Calling `fail_payment` on the already-completed hash 11. -/
def r8c : Pay.Processor × Except Pay.RoutingError Unit := Pay.fail_payment p8b 11 "injected" 600 true

/-- Routing policy with 8 max hops. -/
def pol9 : PF.Policy :=
  { max_hops := 8, max_timelock := 144, max_fee_rate := 1000, min_channel_capacity := 1 }

/-- Counterexample graph: two direct channels from node 1 to node 2;
channel 10 has `timelock_delta = 2^63` (so its wrapped u64 cost is 0),
channel 20 has `timelock_delta = 1` (cost 10). -/
def g9 : PF.Graph :=
  { nodes := [(1, [10, 20]), (2, [10, 20])], channels := [(10, { source := 1, target := 2, capacity := 100, fee_rate := 0, timelock_delta := 2 ^ 63, reliability := 1 }), (20, { source := 1, target := 2, capacity := 100, fee_rate := 0, timelock_delta := 1, reliability := 1 })] }

/-- Witness graph: a single channel 30 from node 1 to node 2. -/
def g9w : PF.Graph :=
  { nodes := [(1, [30]), (2, [30])], channels := [(30, { source := 1, target := 2, capacity := 10, fee_rate := 0, timelock_delta := 1, reliability := 1 })] }

end Samples

namespace Flashchain

theorem alookup_nil {V : Type} (k : Nat) : alookup ([] : List (Nat × V)) k = none := rfl

theorem alookup_cons {V : Type} (a : Nat) (b : V) (rest : List (Nat × V)) (k : Nat) :
    alookup ((a, b) :: rest) k = if a = k then some b else alookup rest k := rfl

theorem alookup_mem {V : Type} {m : List (Nat × V)} {k : Nat} {v : V}
    (h : alookup m k = some v) : (k, v) ∈ m := by
  induction m with
  | nil => simp [alookup_nil] at h
  | cons p rest ih =>
    obtain ⟨a, b⟩ := p
    rw [alookup_cons] at h
    by_cases hk : a = k
    · simp only [if_pos hk] at h
      subst hk
      simp [← Option.some.inj h]
    · simp only [if_neg hk] at h
      exact List.mem_cons_of_mem _ (ih h)

theorem alookup_eq_none {V : Type} {m : List (Nat × V)} {k : Nat} :
    alookup m k = none ↔ k ∉ m.map Prod.fst := by
  induction m with
  | nil => simp [alookup_nil]
  | cons p rest ih =>
    obtain ⟨a, b⟩ := p
    rw [alookup_cons]
    by_cases hk : a = k
    · simp [hk]
    · simp [hk, ih, Ne.symm hk]

theorem aset_of_not_mem {V : Type} {m : List (Nat × V)} {k : Nat} (v : V)
    (h : k ∉ m.map Prod.fst) : aset m k v = m := by
  induction m with
  | nil => rfl
  | cons p rest ih =>
    obtain ⟨a, b⟩ := p
    simp only [List.map_cons, List.mem_cons] at h
    push_neg at h
    have h1 : ¬ a = k := fun he => h.1 he.symm
    simp only [aset, List.map_cons, if_neg h1]
    have := ih h.2
    simp only [aset] at this
    rw [this]

theorem keys_aset {V : Type} (m : List (Nat × V)) (k : Nat) (v : V) :
    (aset m k v).map Prod.fst = m.map Prod.fst := by
  induction m with
  | nil => rfl
  | cons p rest ih =>
    obtain ⟨a, b⟩ := p
    by_cases hk : a = k
    · simp only [aset, List.map_cons, if_pos hk] at ih ⊢
      rw [ih, hk]
    · simp only [aset, List.map_cons, if_neg hk] at ih ⊢
      rw [ih]

theorem msum_cons {V : Type} (f : V → Nat) (p : Nat × V) (rest : List (Nat × V)) :
    msum f (p :: rest) = f p.2 + msum f rest := by
  simp [msum]

theorem msum_consPair {V : Type} (f : V → Nat) (a : Nat) (b : V) (rest : List (Nat × V)) :
    msum f ((a, b) :: rest) = f b + msum f rest := by
  simp [msum]

theorem aset_cons {V : Type} (a : Nat) (b : V) (rest : List (Nat × V)) (k : Nat) (v : V) :
    aset ((a, b) :: rest) k v = (if a = k then (k, v) else (a, b)) :: aset rest k v := by
  simp [aset]

theorem msum_append1 {V : Type} (f : V → Nat) (m : List (Nat × V)) (k : Nat) (v : V) :
    msum f (m ++ [(k, v)]) = msum f m + f v := by
  simp [msum]

theorem msum_aset {V : Type} {f : V → Nat} {m : List (Nat × V)} {k : Nat} {v : V} (w : V)
    (hnd : (m.map Prod.fst).Nodup) (h : alookup m k = some v) :
    msum f (aset m k w) + f v = msum f m + f w := by
  induction m with
  | nil => simp [alookup_nil] at h
  | cons p rest ih =>
    obtain ⟨a, b⟩ := p
    rw [alookup_cons] at h
    simp only [List.map_cons, List.nodup_cons] at hnd
    by_cases hk : a = k
    · simp only [if_pos hk] at h
      have hv : b = v := Option.some.inj h
      have hrest : aset rest k w = rest := aset_of_not_mem w (hk ▸ hnd.1)
      rw [aset_cons, if_pos hk, hrest, msum_consPair, msum_consPair, hv]
      omega
    · simp only [if_neg hk] at h
      have := ih hnd.2 h
      rw [aset_cons, if_neg hk, msum_consPair, msum_consPair]
      omega

theorem aremove_nil {V : Type} (k : Nat) : aremove ([] : List (Nat × V)) k = [] := rfl

theorem aremove_cons {V : Type} (a : Nat) (b : V) (rest : List (Nat × V)) (k : Nat) :
    aremove ((a, b) :: rest) k =
      if a = k then aremove rest k else (a, b) :: aremove rest k := by
  by_cases hk : a = k
  · simp [aremove, hk]
  · simp [aremove, hk]

theorem aremove_of_not_mem {V : Type} {m : List (Nat × V)} {k : Nat}
    (h : k ∉ m.map Prod.fst) : aremove m k = m := by
  induction m with
  | nil => rfl
  | cons p rest ih =>
    obtain ⟨a, b⟩ := p
    simp only [List.map_cons, List.mem_cons] at h
    push_neg at h
    have h1 : ¬ a = k := fun he => h.1 he.symm
    rw [aremove_cons, if_neg h1, ih h.2]

theorem msum_aremove {V : Type} {f : V → Nat} {m : List (Nat × V)} {k : Nat} {v : V}
    (hnd : (m.map Prod.fst).Nodup) (h : alookup m k = some v) :
    msum f (aremove m k) + f v = msum f m := by
  induction m with
  | nil => simp [alookup_nil] at h
  | cons p rest ih =>
    obtain ⟨a, b⟩ := p
    rw [alookup_cons] at h
    simp only [List.map_cons, List.nodup_cons] at hnd
    by_cases hk : a = k
    · simp only [if_pos hk] at h
      have hv : b = v := Option.some.inj h
      rw [aremove_cons, if_pos hk, aremove_of_not_mem (hk ▸ hnd.1), msum_consPair, hv]
      omega
    · simp only [if_neg hk] at h
      have := ih hnd.2 h
      rw [aremove_cons, if_neg hk, msum_consPair, msum_consPair]
      omega

theorem keys_aremove_sublist {V : Type} (m : List (Nat × V)) (k : Nat) :
    ((aremove m k).map Prod.fst).Sublist (m.map Prod.fst) :=
  (List.filter_sublist m).map Prod.fst

theorem nodup_keys_aremove {V : Type} {m : List (Nat × V)} (k : Nat)
    (hnd : (m.map Prod.fst).Nodup) : ((aremove m k).map Prod.fst).Nodup :=
  hnd.sublist (keys_aremove_sublist m k)

theorem acontains_iff {V : Type} {m : List (Nat × V)} {k : Nat} :
    acontains m k = true ↔ k ∈ m.map Prod.fst := by
  unfold acontains
  cases h : alookup m k with
  | none => simpa using alookup_eq_none.mp h
  | some v =>
    simp only [Option.isSome_some, true_iff]
    exact List.mem_map.mpr ⟨(k, v), alookup_mem h, rfl⟩

theorem keys_ainsert_nodup {V : Type} {m : List (Nat × V)} {k : Nat} (v : V)
    (hnd : (m.map Prod.fst).Nodup) : ((ainsert m k v).map Prod.fst).Nodup := by
  unfold ainsert
  by_cases hc : acontains m k
  · simp [hc, keys_aset, hnd]
  · have hk : k ∉ m.map Prod.fst := fun hm => hc (acontains_iff.mpr hm)
    rw [if_neg hc]
    simp only [List.map_append]
    rw [List.nodup_append]
    refine ⟨hnd, by simp, ?_⟩
    intro x hx
    simp only [List.map_cons, List.map_nil, List.mem_singleton]
    exact fun he => hk (he ▸ hx)

theorem msum_ainsert_of_absent {V : Type} (f : V → Nat) {m : List (Nat × V)} {k : Nat} (v : V)
    (h : alookup m k = none) : msum f (ainsert m k v) = msum f m + f v := by
  unfold ainsert acontains
  rw [h]
  simp [msum_append1]

theorem entryAdd_present {m : List (Nat × Nat)} {k v : Nat} (d : Nat)
    (h : alookup m k = some v) : entryAdd m k d = aset m k (v + d) := by
  simp [entryAdd, h]

theorem entryAdd_absent {m : List (Nat × Nat)} {k : Nat} (d : Nat)
    (h : alookup m k = none) : entryAdd m k d = m ++ [(k, d)] := by
  simp [entryAdd, h]

theorem ainsert_present {V : Type} {m : List (Nat × V)} {k : Nat} {v2 : V} (v : V)
    (h : alookup m k = some v2) : ainsert m k v = aset m k v := by
  simp [ainsert, acontains, h]

theorem ainsert_absent {V : Type} {m : List (Nat × V)} {k : Nat} (v : V)
    (h : alookup m k = none) : ainsert m k v = m ++ [(k, v)] := by
  simp [ainsert, acontains, h]

theorem msum_entryAdd {m : List (Nat × Nat)} {k : Nat} (d : Nat)
    (hnd : (m.map Prod.fst).Nodup) : msum id (entryAdd m k d) = msum id m + d := by
  cases h : alookup m k with
  | none =>
    rw [entryAdd_absent d h, msum_append1]
    simp
  | some v =>
    rw [entryAdd_present d h]
    have := msum_aset (f := id) (v + d) hnd h
    simp only [id_eq] at this
    omega

theorem keys_entryAdd_nodup {m : List (Nat × Nat)} {k : Nat} (d : Nat)
    (hnd : (m.map Prod.fst).Nodup) : ((entryAdd m k d).map Prod.fst).Nodup := by
  cases h : alookup m k with
  | none =>
    have hk : k ∉ m.map Prod.fst := alookup_eq_none.mp h
    rw [entryAdd_absent d h]
    simp only [List.map_append]
    rw [List.nodup_append]
    refine ⟨hnd, by simp, ?_⟩
    intro x hx
    simp only [List.map_cons, List.map_nil, List.mem_singleton]
    exact fun he => hk (he ▸ hx)
  | some v =>
    rw [entryAdd_present d h]
    simp [keys_aset, hnd]

theorem alookup_append_right {V : Type} {m : List (Nat × V)} {k : Nat}
    (h : alookup m k = none) (tl : List (Nat × V)) :
    alookup (m ++ tl) k = alookup tl k := by
  induction m with
  | nil => rfl
  | cons p rest ih =>
    obtain ⟨a, b⟩ := p
    rw [alookup_cons] at h
    by_cases hk : a = k
    · simp [if_pos hk] at h
    · simp only [if_neg hk] at h
      rw [List.cons_append, alookup_cons, if_neg hk]
      exact ih h

theorem alookup_aset_self {V : Type} {m : List (Nat × V)} {k : Nat} {v : V} (w : V)
    (h : alookup m k = some v) : alookup (aset m k w) k = some w := by
  induction m with
  | nil => simp [alookup_nil] at h
  | cons p rest ih =>
    obtain ⟨a, b⟩ := p
    rw [alookup_cons] at h
    by_cases hk : a = k
    · simp only [aset, List.map_cons, if_pos hk]
      rw [alookup_cons, if_pos rfl]
    · simp only [if_neg hk] at h
      simp only [aset, List.map_cons, if_neg hk]
      rw [alookup_cons, if_neg hk]
      simpa [aset] using ih h

theorem alookup_aset_ne {V : Type} (m : List (Nat × V)) (k : Nat) (v : V) {k2 : Nat}
    (h : k2 ≠ k) : alookup (aset m k v) k2 = alookup m k2 := by
  induction m with
  | nil => rfl
  | cons p rest ih =>
    obtain ⟨a, b⟩ := p
    by_cases hk : a = k
    · have hne : ¬ k = k2 := fun he => h he.symm
      simp only [aset, List.map_cons, if_pos hk]
      rw [alookup_cons, alookup_cons, if_neg hne, if_neg (hk ▸ hne)]
      simpa [aset] using ih
    · simp only [aset, List.map_cons, if_neg hk]
      rw [alookup_cons, alookup_cons]
      by_cases hp : a = k2
      · simp [hp]
      · simp only [if_neg hp]
        simpa [aset] using ih

theorem alookup_append_ne {V : Type} (m : List (Nat × V)) {k k2 : Nat} (v : V)
    (h : k2 ≠ k) : alookup (m ++ [(k, v)]) k2 = alookup m k2 := by
  induction m with
  | nil => simp [alookup_nil, alookup_cons, Ne.symm h]
  | cons p rest ih =>
    obtain ⟨a, b⟩ := p
    rw [List.cons_append, alookup_cons, alookup_cons]
    by_cases hp : a = k2
    · simp [hp]
    · simp only [if_neg hp]
      exact ih

theorem alookup_entryAdd_self {m : List (Nat × Nat)} (k d : Nat) :
    alookup (entryAdd m k d) k = some ((alookup m k).getD 0 + d) := by
  cases h : alookup m k with
  | none =>
    rw [entryAdd_absent d h, alookup_append_right h, alookup_cons]
    simp
  | some v =>
    rw [entryAdd_present d h]
    simp [alookup_aset_self (v + d) h]

theorem alookup_entryAdd_ne (m : List (Nat × Nat)) (k d : Nat) {k2 : Nat}
    (h : k2 ≠ k) : alookup (entryAdd m k d) k2 = alookup m k2 := by
  cases halt : alookup m k with
  | none => rw [entryAdd_absent d halt, alookup_append_ne m d h]
  | some v =>
    rw [entryAdd_present d halt]
    exact alookup_aset_ne m k (v + d) h

theorem alookup_ainsert_self {V : Type} (m : List (Nat × V)) (k : Nat) (v : V) :
    alookup (ainsert m k v) k = some v := by
  cases h : alookup m k with
  | none =>
    rw [ainsert_absent v h, alookup_append_right h, alookup_cons]
    simp
  | some w =>
    rw [ainsert_present v h]
    simp [alookup_aset_self v h]

theorem alookup_ainsert_ne {V : Type} (m : List (Nat × V)) (k : Nat) (v : V) {k2 : Nat}
    (h : k2 ≠ k) : alookup (ainsert m k v) k2 = alookup m k2 := by
  cases hc : alookup m k with
  | none => rw [ainsert_absent v hc, alookup_append_ne m v h]
  | some w =>
    rw [ainsert_present v hc]
    exact alookup_aset_ne m k v h

theorem alookup_aremove_ne {V : Type} (m : List (Nat × V)) (k : Nat) {k2 : Nat}
    (h : k2 ≠ k) : alookup (aremove m k) k2 = alookup m k2 := by
  induction m with
  | nil => rfl
  | cons p rest ih =>
    obtain ⟨a, b⟩ := p
    rw [aremove_cons]
    by_cases hk : a = k
    · have hne : ¬ a = k2 := fun he => h (by rw [← he, hk])
      rw [if_pos hk, alookup_cons, if_neg hne]
      exact ih
    · rw [if_neg hk, alookup_cons, alookup_cons]
      by_cases hp : a = k2
      · simp [hp]
      · simp only [if_neg hp]
        exact ih

theorem alookup_aremove_self {V : Type} (m : List (Nat × V)) (k : Nat) :
    alookup (aremove m k) k = none := by
  induction m with
  | nil => rfl
  | cons p rest ih =>
    obtain ⟨a, b⟩ := p
    rw [aremove_cons]
    by_cases hk : a = k
    · rw [if_pos hk]
      exact ih
    · rw [if_neg hk, alookup_cons, if_neg hk]
      exact ih

end Flashchain

open Flashchain

/-- C10: `create_htlc` rejects (and leaves the state unchanged) whenever
the sender or the receiver is not in the channel's participants list,
regardless of balances: the participant check is the first guard. -/
theorem C10_create_htlc_requires_both_participants
    (keccak : List Nat → Nat) (s : StateCS.ChannelState)
    (sender receiver amount hash_lock timeout : Nat)
    (h : sender ∉ s.participants ∨ receiver ∉ s.participants) :
    StateCS.create_htlc keccak s sender receiver amount hash_lock timeout =
      (s, .error (.InvalidTransition "Invalid participants")) := by
  unfold StateCS.create_htlc
  rw [if_pos h]

/-- Witness for C10: receiver 3 is not a participant of `stB` although
the sender holds free balance 100 ≥ 5; the call errors and returns the
state unchanged. -/
theorem C10_create_htlc_requires_both_participants_witness :
    StateCS.create_htlc Samples.kZero Samples.stB 1 3 5 9 50 =
      (Samples.stB, .error (.InvalidTransition "Invalid participants")) :=
  C10_create_htlc_requires_both_participants Samples.kZero Samples.stB 1 3 5 9 50
    (by decide)

/-- C1 (code bug): `StateManager::update_channel_state` applies the
update to the in-memory map before persisting.  With a valid sequence-1
update and a failing `persist_state_update`, the call returns the
persistence error, yet `get_channel_state` afterwards shows the bumped
sequence 1 instead of the untouched sequence 0. -/
theorem C1_persistence_failure_leaves_bumped_state :
    (StateCS.update_channel_state Samples.statesA 7 Samples.updA false).2 =
        .error (.PersistenceError "persist_state_update failed")
      ∧ StateCS.get_channel_state (StateCS.update_channel_state Samples.statesA 7 Samples.updA false).1 7 =
        .ok { Samples.stA with sequence := 1, last_update := 99 }
      ∧ Samples.stA.sequence = 0 :=
  ⟨rfl, rfl, rfl⟩

/-- C2 (code bug): because `ChannelState::verify_signature` is a stub
returning `true`, `update_channel_state` accepts an update whose
signature map holds arbitrary garbage bytes (address 2 even maps to the
empty byte string); no cryptographic check relates them to the new
state hash. -/
theorem C2_garbage_signatures_accepted :
    (StateCS.update_channel_state Samples.statesA 7 Samples.updA true).2 = .ok ()
      ∧ StateCS.get_channel_state (StateCS.update_channel_state Samples.statesA 7 Samples.updA true).1 7 =
        .ok { Samples.stA with sequence := 1, last_update := 99 } :=
  ⟨rfl, rfl⟩

/-- Counterexample to C5 as stated: a successful `create_htlc` on the
state/channel_state.rs `ChannelState` leaves the sequence number
unchanged (0 before and after). -/
theorem C5_counterexample_create_htlc_keeps_sequence :
    (StateCS.create_htlc Samples.kZero Samples.stB 1 2 50 7 99).2 = .ok 0
      ∧ (StateCS.create_htlc Samples.kZero Samples.stB 1 2 50 7 99).1.sequence = Samples.stB.sequence :=
  ⟨rfl, rfl⟩

/-- C5 (amended): every successful operation of the channel/state.rs
state machine (`transfer`, `create_lock`, `unlock`, `expire_lock`)
increases `sequence_number` by exactly 1 and ends by recomputing the
merkle root (`update_merkle_root`, whose placeholder stores 0). -/
theorem C5_channel_ops_bump_sequence
    (s : ChanSt.CChannelState) (op : ChanSt.COp) (s2 : ChanSt.CChannelState)
    (h : ChanSt.StepOk s op s2) :
    s2.sequence_number = s.sequence_number + 1 ∧ s2.merkle_root = 0 := by
  cases op with
  | transferOp f t a =>
    unfold ChanSt.StepOk at h
    simp only [ChanSt.stepApp] at h
    unfold ChanSt.transfer at h
    simp only [] at h
    split at h
    · simp [Except.toBool] at h
    · split at h
      · simp [Except.toBool] at h
      · simp only [Except.toBool, ChanSt.update_merkle_root, Prod.mk.injEq] at h
        rw [← h.1]
        exact ⟨rfl, rfl⟩
  | createLockOp se re a e hs =>
    unfold ChanSt.StepOk at h
    simp only [ChanSt.stepApp] at h
    unfold ChanSt.create_lock at h
    simp only [] at h
    split at h
    · simp [Except.toBool] at h
    · split at h
      · simp [Except.toBool] at h
      · split at h
        · simp [Except.toBool] at h
        · simp only [Except.toBool, ChanSt.update_merkle_root, Prod.mk.injEq] at h
          rw [← h.1]
          exact ⟨rfl, rfl⟩
  | unlockOp l sec =>
    unfold ChanSt.StepOk at h
    simp only [ChanSt.stepApp] at h
    unfold ChanSt.unlock at h
    simp only [] at h
    split at h
    · simp [Except.toBool] at h
    · split at h
      · simp [Except.toBool] at h
      · simp only [Except.toBool, ChanSt.update_merkle_root, Prod.mk.injEq] at h
        rw [← h.1]
        exact ⟨rfl, rfl⟩
  | expireLockOp l hgt =>
    unfold ChanSt.StepOk at h
    simp only [ChanSt.stepApp] at h
    unfold ChanSt.expire_lock at h
    simp only [] at h
    split at h
    · simp [Except.toBool] at h
    · split at h
      · simp [Except.toBool] at h
      · split at h
        · simp [Except.toBool] at h
        · simp only [Except.toBool, ChanSt.update_merkle_root, Prod.mk.injEq] at h
          rw [← h.1]
          exact ⟨rfl, rfl⟩

/-- Witness for C5 (amended): a concrete successful transfer bumps the
sequence from 0 to 1 and recomputes the merkle root. -/
theorem C5_channel_ops_bump_sequence_witness :
    (ChanSt.transfer Samples.sC5 1 2 2).1.sequence_number = Samples.sC5.sequence_number + 1
      ∧ (ChanSt.transfer Samples.sC5 1 2 2).1.merkle_root = 0 :=
  C5_channel_ops_bump_sequence Samples.sC5 (.transferOp 1 2 2) (ChanSt.transfer Samples.sC5 1 2 2).1
    (by unfold ChanSt.StepOk; decide)

/-- C7 (code bug): `expire_lock` succeeds at exactly the timeout height
(and fails with InvalidLock one block earlier), but on success it
credits the 40 locked units to address 0 — the placeholder result of
`find_lock_sender` — while the balance of the real sender (address 5)
is unchanged at 100, and the lock is removed rather than marked. -/
theorem C7_expire_lock_credits_address_zero :
    (ChanSt.expire_lock Samples.s7 0 10).2 = .ok ()
      ∧ (ChanSt.expire_lock Samples.s7 0 9).2 = .error (.InvalidLock "Lock not expired")
      ∧ alookup (ChanSt.expire_lock Samples.s7 0 10).1.balances 0 = some 40
      ∧ alookup (ChanSt.expire_lock Samples.s7 0 10).1.balances 5 = some 100
      ∧ alookup (ChanSt.expire_lock Samples.s7 0 10).1.locks 0 = none :=
  ⟨rfl, rfl, rfl, rfl, rfl⟩

/-- C8 (code bug): after `init_payment` and `complete_payment` the
status of hash 11 is the terminal `Success`; a later `fail_payment`
returns the "Payment not found" error but still overwrites the stored
status with `Failed` — a regression out of a terminal state, because
`fail_payment` inserts the status before checking `active_payments`. -/
theorem C8_terminal_status_regression :
    Pay.get_payment_status Samples.p8b 11 = .ok .Success
      ∧ Samples.r8c.2 = .error (.PaymentFailed "Payment not found")
      ∧ Pay.get_payment_status Samples.r8c.1 11 = .ok .Failed :=
  ⟨rfl, rfl, rfl⟩

namespace Flashchain

theorem msum_ge_of_mem {V : Type} (f : V → Nat) {m : List (Nat × V)} {k : Nat} {v : V}
    (h : (k, v) ∈ m) : f v ≤ msum f m := by
  induction m with
  | nil => simp at h
  | cons p rest ih =>
    rcases List.mem_cons.mp h with he | hm
    · rw [← he, msum_consPair]
      omega
    · rw [msum_cons]
      have := ih hm
      omega

end Flashchain

/-- C3: for a channel state holding a Pending HTLC `htlc` under id `h`
(with both endpoint balances present, distinct endpoints, and the
locked amount covering the HTLC), `fulfill_htlc h p` succeeds exactly
when `keccak(p)` equals the HTLC's hash lock; on success the HTLC is
marked Fulfilled, the amount leaves the sender's locked balance (and
the id leaves its pending list) and is credited to the receiver's free
balance; on a bad preimage the error is returned with the state
unchanged. -/
theorem C3_fulfill_htlc_iff_preimage
    (keccak : List Nat → Nat) (s : StateCS.ChannelState) (h p : Nat)
    (htlc : StateCS.Htlc) (sb rb : StateCS.Balance)
    (hh : alookup s.htlcs h = some htlc)
    (hpend : htlc.status = .Pending)
    (hsb : alookup s.balances htlc.sender = some sb)
    (hrb : alookup s.balances htlc.receiver = some rb)
    (hsr : htlc.sender ≠ htlc.receiver)
    (hamt : htlc.amount ≤ sb.locked) :
    ((StateCS.fulfill_htlc keccak s h p).2 = .ok () ↔ keccak (beBytes 32 p) = htlc.hash_lock)
      ∧ (keccak (beBytes 32 p) = htlc.hash_lock →
          alookup (StateCS.fulfill_htlc keccak s h p).1.htlcs h = some { htlc with status := .Fulfilled }
          ∧ alookup (StateCS.fulfill_htlc keccak s h p).1.balances htlc.sender =
              some { sb with locked := sb.locked - htlc.amount, pending_htlcs := sb.pending_htlcs.filter (fun i => i != h) }
          ∧ alookup (StateCS.fulfill_htlc keccak s h p).1.balances htlc.receiver =
              some { rb with amount := rb.amount + htlc.amount })
      ∧ (keccak (beBytes 32 p) ≠ htlc.hash_lock →
          StateCS.fulfill_htlc keccak s h p = (s, .error (.InvalidTransition "Invalid preimage"))) := by
  by_cases hk : keccak (beBytes 32 p) = htlc.hash_lock
  · have hcomp : StateCS.fulfill_htlc keccak s h p =
        ({ s with htlcs := aset s.htlcs h { htlc with status := .Fulfilled },
                  balances := aset (aset s.balances htlc.sender { sb with locked := sb.locked - htlc.amount, pending_htlcs := sb.pending_htlcs.filter (fun i => i != h) }) htlc.receiver { rb with amount := rb.amount + htlc.amount } },
         .ok ()) := by
      unfold StateCS.fulfill_htlc
      rw [hh]
      simp only []
      rw [if_neg (by simp [hpend])]
      rw [if_neg (by simp [StateCS.verify_preimage, hk])]
      rw [hsb]
      simp only []
      rw [alookup_aset_ne _ _ _ (Ne.symm hsr), hrb]
    refine ⟨?_, ?_, ?_⟩
    · rw [hcomp]
      simp [hk]
    · intro _
      rw [hcomp]
      refine ⟨alookup_aset_self _ hh, ?_, ?_⟩
      · rw [alookup_aset_ne _ _ _ hsr]
        exact alookup_aset_self _ hsb
      · exact alookup_aset_self _ (by rw [alookup_aset_ne _ _ _ (Ne.symm hsr)]; exact hrb)
    · intro hne
      exact absurd hk hne
  · have hcomp : StateCS.fulfill_htlc keccak s h p = (s, .error (.InvalidTransition "Invalid preimage")) := by
      unfold StateCS.fulfill_htlc
      rw [hh]
      simp only []
      rw [if_neg (by simp [hpend])]
      rw [if_pos (by simp [StateCS.verify_preimage, hk])]
    refine ⟨?_, ?_, ?_⟩
    · rw [hcomp]
      simp [hk]
    · intro hkk
      exact absurd hkk hk
    · intro _
      exact hcomp

/-- Witness for C3: with the byte-sum hash, preimage 9 matches hash
lock 9 of the pending HTLC in `st3`, so the fulfillment succeeds. -/
theorem C3_fulfill_htlc_iff_preimage_witness :
    (StateCS.fulfill_htlc Samples.kSum Samples.st3 4 9).2 = .ok () :=
  (C3_fulfill_htlc_iff_preimage Samples.kSum Samples.st3 4 9
      { id := 4, sender := 1, receiver := 2, amount := 3, hash_lock := 9, timeout := 50, status := .Pending }
      { amount := 10, locked := 5, pending_htlcs := [4] }
      { amount := 20, locked := 0, pending_htlcs := [] }
      rfl rfl rfl rfl (by decide) (by decide)).1.mpr (by decide)

/-- One successful channel/state.rs operation preserves the conservation
invariant: Σ free balances + `total_locked` stays within `cap`,
`total_locked` stays equal to the sum of the pending lock amounts, and
the two maps keep distinct keys. -/
theorem chanStepInvariant (cap : Nat) (s : ChanSt.CChannelState) (op : ChanSt.COp)
    (s2 : ChanSt.CChannelState) (h : ChanSt.StepOk s op s2)
    (hsum : msum id s.balances + s.total_locked ≤ cap)
    (htl : s.total_locked = msum (fun l => l.amount) s.locks)
    (hnb : (s.balances.map Prod.fst).Nodup)
    (hnl : (s.locks.map Prod.fst).Nodup) :
    (msum id s2.balances + s2.total_locked ≤ cap)
      ∧ s2.total_locked = msum (fun l => l.amount) s2.locks
      ∧ (s2.balances.map Prod.fst).Nodup
      ∧ (s2.locks.map Prod.fst).Nodup := by
  cases op with
  | transferOp f t a =>
    unfold ChanSt.StepOk at h
    simp only [ChanSt.stepApp] at h
    unfold ChanSt.transfer at h
    simp only [] at h
    split at h
    · simp [Except.toBool] at h
    · rename_i fb heq
      split at h
      · simp [Except.toBool] at h
      · rename_i hlt
        simp only [Except.toBool, ChanSt.update_merkle_root, Prod.mk.injEq] at h
        obtain ⟨h1, -⟩ := h
        subst h1
        dsimp only []
        have e1 := msum_aset (f := id) (fb - a) hnb heq
        simp only [id_eq] at e1
        have hnb2 : ((aset s.balances f (fb - a)).map Prod.fst).Nodup := by
          rw [keys_aset]; exact hnb
        have e2 := msum_entryAdd (m := aset s.balances f (fb - a)) (k := t) a hnb2
        refine ⟨by omega, htl, keys_entryAdd_nodup a hnb2, hnl⟩
  | createLockOp se re a e hs =>
    unfold ChanSt.StepOk at h
    simp only [ChanSt.stepApp] at h
    unfold ChanSt.create_lock at h
    simp only [] at h
    split at h
    · simp [Except.toBool] at h
    · rename_i sb heq
      split at h
      · simp [Except.toBool] at h
      · rename_i hlt
        split at h
        · simp [Except.toBool] at h
        · rename_i hcon
          have habs : alookup s.locks (ChanSt.generate_lock_id s se re a hs) = none := by
            unfold acontains at hcon
            cases h2 : alookup s.locks (ChanSt.generate_lock_id s se re a hs) with
            | none => rfl
            | some l => rw [h2] at hcon; simp at hcon
          simp only [Except.toBool, ChanSt.update_merkle_root, Prod.mk.injEq] at h
          obtain ⟨h1, -⟩ := h
          subst h1
          dsimp only []
          have e1 := msum_aset (f := id) (sb - a) hnb heq
          simp only [id_eq] at e1
          have e2 := msum_ainsert_of_absent (fun l : ChanSt.TimeLock => l.amount)
            { lock_id := ChanSt.generate_lock_id s se re a hs, amount := a, expiration_height := e, recipient := re, secret_hash := hs } habs
          simp only [] at e2
          refine ⟨by omega, by rw [e2]; omega, by rw [keys_aset]; exact hnb, keys_ainsert_nodup _ hnl⟩
  | unlockOp l sec =>
    unfold ChanSt.StepOk at h
    simp only [ChanSt.stepApp] at h
    unfold ChanSt.unlock at h
    simp only [] at h
    split at h
    · simp [Except.toBool] at h
    · rename_i lock heq
      split at h
      · simp [Except.toBool] at h
      · simp only [Except.toBool, ChanSt.update_merkle_root, Prod.mk.injEq] at h
        obtain ⟨h1, -⟩ := h
        subst h1
        dsimp only []
        have hmem := alookup_mem heq
        have hle : lock.amount ≤ msum (fun l : ChanSt.TimeLock => l.amount) s.locks :=
          msum_ge_of_mem (fun l : ChanSt.TimeLock => l.amount) hmem
        have e1 := msum_entryAdd (m := s.balances) (k := lock.recipient) lock.amount hnb
        have e2 := msum_aremove (f := fun l : ChanSt.TimeLock => l.amount) hnl heq
        simp only [] at e2
        refine ⟨by omega, by omega, keys_entryAdd_nodup _ hnb, nodup_keys_aremove _ hnl⟩
  | expireLockOp l hgt =>
    unfold ChanSt.StepOk at h
    simp only [ChanSt.stepApp] at h
    unfold ChanSt.expire_lock at h
    simp only [ChanSt.find_lock_sender] at h
    split at h
    · simp [Except.toBool] at h
    · rename_i lock heq
      split at h
      · simp [Except.toBool] at h
      · simp only [Except.toBool, ChanSt.update_merkle_root, Prod.mk.injEq] at h
        obtain ⟨h1, -⟩ := h
        subst h1
        dsimp only []
        have hmem := alookup_mem heq
        have hle : lock.amount ≤ msum (fun l : ChanSt.TimeLock => l.amount) s.locks :=
          msum_ge_of_mem (fun l : ChanSt.TimeLock => l.amount) hmem
        have e1 := msum_entryAdd (m := s.balances) (k := 0) lock.amount hnb
        have e2 := msum_aremove (f := fun l : ChanSt.TimeLock => l.amount) hnl heq
        simp only [] at e2
        refine ⟨by omega, by omega, keys_entryAdd_nodup _ hnb, nodup_keys_aremove _ hnl⟩

/-- The conservation invariant holds in every state reachable by
successful operations. -/
theorem chanReachInvariant (cap : Nat) {s0 s : ChanSt.CChannelState}
    (hr : ChanSt.Reach s0 s)
    (h0 : (msum id s0.balances + s0.total_locked ≤ cap)
      ∧ s0.total_locked = msum (fun l => l.amount) s0.locks
      ∧ (s0.balances.map Prod.fst).Nodup
      ∧ (s0.locks.map Prod.fst).Nodup) :
    (msum id s.balances + s.total_locked ≤ cap)
      ∧ s.total_locked = msum (fun l => l.amount) s.locks
      ∧ (s.balances.map Prod.fst).Nodup
      ∧ (s.locks.map Prod.fst).Nodup := by
  induction hr with
  | refl => exact h0
  | step hr hstep ih =>
    exact chanStepInvariant cap _ _ _ hstep ih.1 ih.2.1 ih.2.2.1 ih.2.2.2

/-- C4: from a valid initial state (no locks, `total_locked` 0, distinct
balance keys, total allocation within the capacity), every state
reachable by successful `transfer` / `create_lock` / `unlock` /
`expire_lock` operations keeps Σ free balances + Σ pending lock
amounts at or below the channel capacity. -/
theorem C4_conservation (cap : Nat) (s0 s : ChanSt.CChannelState)
    (hlocks : s0.locks = []) (htl0 : s0.total_locked = 0)
    (hsum0 : msum id s0.balances ≤ cap)
    (hnb0 : (s0.balances.map Prod.fst).Nodup)
    (hr : ChanSt.Reach s0 s) :
    msum id s.balances + msum (fun l => l.amount) s.locks ≤ cap := by
  have h0 : (msum id s0.balances + s0.total_locked ≤ cap)
      ∧ s0.total_locked = msum (fun l => l.amount) s0.locks
      ∧ (s0.balances.map Prod.fst).Nodup
      ∧ (s0.locks.map Prod.fst).Nodup := by
    rw [hlocks, htl0]
    exact ⟨by simpa using hsum0, by simp [msum], hnb0, by simp⟩
  have hinv := chanReachInvariant cap hr h0
  omega

/-- Witness for C4: the one-participant state `s4` (balance 4, no
locks) is trivially reachable from itself and satisfies conservation
for capacity 10. -/
theorem C4_conservation_witness :
    msum id Samples.s4.balances + msum (fun l => l.amount) Samples.s4.locks ≤ 10 :=
  C4_conservation 10 Samples.s4 Samples.s4 rfl rfl (by decide) (by decide) (.refl Samples.s4)

namespace Flashchain

theorem insertSorted_forall2 {α : Type} (key : α → Nat) {R : α → α → Prop}
    (hkey : ∀ a b, R a b → key a = key b) {x y : α} (hxy : R x y)
    {l1 l2 : List α} (h : List.Forall₂ R l1 l2) :
    List.Forall₂ R (insertSorted key x l1) (insertSorted key y l2) := by
  induction h with
  | nil => exact .cons hxy .nil
  | cons hab htail ih =>
    rename_i a b as bs
    rw [insertSorted, insertSorted]
    by_cases hlt : key x < key a
    · rw [if_pos hlt, if_pos (by rw [← hkey x y hxy, ← hkey a b hab]; exact hlt)]
      exact .cons hxy (.cons hab htail)
    · rw [if_neg hlt, if_neg (by rw [← hkey x y hxy, ← hkey a b hab]; exact hlt)]
      exact .cons hab ih

theorem sortByKey_forall2 {α : Type} (key : α → Nat) {R : α → α → Prop}
    (hkey : ∀ a b, R a b → key a = key b) {l1 l2 : List α}
    (h : List.Forall₂ R l1 l2) :
    List.Forall₂ R (sortByKey key l1) (sortByKey key l2) := by
  induction h with
  | nil => exact .nil
  | cons hab htail ih =>
    rw [sortByKey, List.foldr_cons, sortByKey, List.foldr_cons]
    exact insertSorted_forall2 key hkey hab ih

theorem forall2_map {α β : Type} {R : α → α → Prop} {S : β → β → Prop} (f : α → β)
    (hf : ∀ a b, R a b → S (f a) (f b)) {l1 l2 : List α} (h : List.Forall₂ R l1 l2) :
    List.Forall₂ S (l1.map f) (l2.map f) := by
  induction h with
  | nil => exact .nil
  | cons hab htail ih => exact .cons (hf _ _ hab) ih

theorem forall2_map_eq {α β : Type} {R : α → α → Prop} (f : α → β)
    (hf : ∀ a b, R a b → f a = f b) {l1 l2 : List α} (h : List.Forall₂ R l1 l2) :
    l1.map f = l2.map f := by
  induction h with
  | nil => rfl
  | cons hab htail ih =>
    rw [List.map_cons, List.map_cons, hf _ _ hab, ih]

end Flashchain

/-- Counterexample to C6 as stated: the canonical encoding built by
`state_hash` omits the HTLC `timeout`, `sender`/`receiver` and `status`
fields, so two different states — differing only in an HTLC's timeout
(100 vs 200), or only in its status (Pending vs Fulfilled) — produce
byte-identical encodings feeding the hash. -/
theorem C6_counterexample_timeout_not_encoded :
    Samples.st6a ≠ Samples.st6b
      ∧ StateCS.encodeState Samples.st6a = StateCS.encodeState Samples.st6b
      ∧ Samples.st6a ≠ Samples.st6c
      ∧ StateCS.encodeState Samples.st6a = StateCS.encodeState Samples.st6c :=
  ⟨by decide, rfl, by decide, rfl⟩

/-- C6 (amended): `state_hash` is keccak over the canonical encoding
`sequence_be8 ‖ (addr ‖ free ‖ locked per balance, sorted by address) ‖
(id ‖ amount ‖ hash_lock per HTLC, sorted by id)`; consequently the
hash depends only on the sequence, the balances, and the HTLCs'
(id, amount, hash_lock) triples — states agreeing on those (in order)
hash identically, whatever their HTLC timeouts, endpoints or statuses. -/
theorem C6_state_hash_congruence (keccak : List Nat → Nat)
    (s1 s2 : StateCS.ChannelState)
    (hseq : s1.sequence = s2.sequence)
    (hbal : s1.balances = s2.balances)
    (hhtlcs : List.Forall₂
      (fun p q : Nat × StateCS.Htlc =>
        p.2.id = q.2.id ∧ p.2.amount = q.2.amount ∧ p.2.hash_lock = q.2.hash_lock)
      s1.htlcs s2.htlcs) :
    StateCS.state_hash keccak s1 = StateCS.state_hash keccak s2 := by
  unfold StateCS.state_hash
  congr 1
  unfold StateCS.encodeState
  rw [hseq, hbal]
  congr 1
  have hmap : List.Forall₂
      (fun h1 h2 : StateCS.Htlc => h1.id = h2.id ∧ h1.amount = h2.amount ∧ h1.hash_lock = h2.hash_lock)
      (s1.htlcs.map (fun p => p.2)) (s2.htlcs.map (fun p => p.2)) :=
    forall2_map (fun p : Nat × StateCS.Htlc => p.2) (fun _ _ hr => hr) hhtlcs
  have hsorted := sortByKey_forall2 (fun h : StateCS.Htlc => h.id)
    (fun _ _ hr => hr.1) hmap
  have := forall2_map_eq
    (fun h : StateCS.Htlc => beBytes 32 h.id ++ beBytes 32 h.amount ++ beBytes 32 h.hash_lock)
    (fun a b hr => by simp only []; rw [hr.1, hr.2.1, hr.2.2]) hsorted
  rw [this]

/-- Witness for C6 (amended): the states `st6a` and `st6b` (HTLC
timeouts 100 vs 200) satisfy the congruence hypotheses, so they hash
identically under any hash function, here `kZero`. -/
theorem C6_state_hash_congruence_witness :
    StateCS.state_hash Samples.kZero Samples.st6a = StateCS.state_hash Samples.kZero Samples.st6b :=
  C6_state_hash_congruence Samples.kZero Samples.st6a Samples.st6b rfl rfl
    (.cons ⟨rfl, rfl, rfl⟩ .nil)

namespace PF

open Flashchain

theorem W_pos : 0 < W := by
  unfold W
  exact Nat.pos_pow_of_pos 64 (by omega)

/-- Under the no-overflow hypotheses, the wrapped edge cost of a channel
present in the map equals the exact one. -/
theorem edgeCostW_eq_of_mem {g : List (Nat × ChannelInfo)} {amount cid : Nat} {c : ChannelInfo}
    (hfee : ∀ pr ∈ g, amount * pr.2.fee_rate < W)
    (htl10 : ∀ pr ∈ g, pr.2.timelock_delta * 10 < W)
    (h : alookup g cid = some c) : edgeCostW amount c = edgeCost amount c := by
  have hmem := alookup_mem h
  have h1 := hfee (cid, c) hmem
  have h2 := htl10 (cid, c) hmem
  simp only [] at h1 h2
  unfold edgeCostW edgeCost
  rw [Nat.mod_eq_of_lt h1, Nat.mod_eq_of_lt h2]

/-- `calculate_path_cost` computes the exact total cost modulo `2^64`. -/
theorem calcFrom_eq {g : List (Nat × ChannelInfo)} {amount : Nat}
    (hfee : ∀ pr ∈ g, amount * pr.2.fee_rate < W)
    (htl10 : ∀ pr ∈ g, pr.2.timelock_delta * 10 < W) :
    ∀ (path : List Nat) (total : Nat), total < W →
      calcFrom g amount path total = (total + trueCost g amount path) % W := by
  intro path
  induction path with
  | nil =>
    intro total htot
    unfold calcFrom trueCost
    rw [Nat.add_zero, Nat.mod_eq_of_lt htot]
  | cons cid rest ih =>
    intro total htot
    unfold calcFrom trueCost
    cases halt : alookup g cid with
    | none =>
      simp only []
      exact ih total htot
    | some c =>
      simp only []
      rw [ih ((total + edgeCostW amount c) % W) (Nat.mod_lt _ W_pos)]
      rw [Nat.mod_add_mod, edgeCostW_eq_of_mem hfee htl10 halt]
      congr 1
      omega

theorem calculate_path_cost_eq {g : List (Nat × ChannelInfo)} {amount : Nat}
    (hfee : ∀ pr ∈ g, amount * pr.2.fee_rate < W)
    (htl10 : ∀ pr ∈ g, pr.2.timelock_delta * 10 < W) (path : List Nat) :
    calculate_path_cost g amount path = trueCost g amount path % W := by
  unfold calculate_path_cost
  rw [calcFrom_eq hfee htl10 path 0 W_pos, Nat.zero_add]

/-- A path of `n` channels costs at most `n` times the total of all
channel costs in the map. -/
theorem trueCost_le_mul {g : List (Nat × ChannelInfo)} {amount : Nat} :
    ∀ path : List Nat, trueCost g amount path ≤ path.length * msum (edgeCost amount) g := by
  intro path
  induction path with
  | nil =>
    unfold trueCost
    omega
  | cons cid rest ih =>
    unfold trueCost
    rw [List.length_cons, Nat.succ_mul]
    cases halt : alookup g cid with
    | none =>
      simp only []
      omega
    | some c =>
      simp only []
      have hle : edgeCost amount c ≤ msum (edgeCost amount) g := by
        have := msum_ge_of_mem (edgeCost amount) (alookup_mem halt)
        exact this
      omega

theorem trueCost_nil (g : List (Nat × ChannelInfo)) (amount : Nat) :
    trueCost g amount [] = 0 := rfl

theorem trueCost_cons_none {g : List (Nat × ChannelInfo)} {amount cid : Nat}
    (rest : List Nat) (h : alookup g cid = none) :
    trueCost g amount (cid :: rest) = trueCost g amount rest := by
  simp only [trueCost, h]

theorem trueCost_cons_some {g : List (Nat × ChannelInfo)} {amount cid : Nat} {c : ChannelInfo}
    (rest : List Nat) (h : alookup g cid = some c) :
    trueCost g amount (cid :: rest) = edgeCost amount c + trueCost g amount rest := by
  simp only [trueCost, h]

theorem trueCost_append (g : List (Nat × ChannelInfo)) (amount : Nat) (p1 p2 : List Nat) :
    trueCost g amount (p1 ++ p2) = trueCost g amount p1 + trueCost g amount p2 := by
  induction p1 with
  | nil =>
    rw [List.nil_append, trueCost_nil, Nat.zero_add]
  | cons cid rest ih =>
    rw [List.cons_append]
    cases halt : alookup g cid with
    | none => rw [trueCost_cons_none _ halt, trueCost_cons_none _ halt, ih]
    | some c => rw [trueCost_cons_some _ halt, trueCost_cons_some _ halt, ih, Nat.add_assoc]

theorem popMin_eq_none {q : List PathState} (h : popMin q = none) : q = [] := by
  cases q with
  | nil => rfl
  | cons x xs =>
    unfold popMin at h
    cases h2 : popMin xs with
    | none => rw [h2] at h; simp at h
    | some pr =>
      rw [h2] at h
      obtain ⟨m, rest⟩ := pr
      by_cases hc : x.cost ≤ m.cost
      · simp [hc] at h
      · simp [hc] at h

theorem popMin_mem {q : List PathState} {cur : PathState} {rest : List PathState}
    (h : popMin q = some (cur, rest)) : cur ∈ q := by
  induction q generalizing cur rest with
  | nil => simp [popMin] at h
  | cons x xs ih =>
    unfold popMin at h
    cases h2 : popMin xs with
    | none =>
      rw [h2] at h
      simp only [Option.some.injEq, Prod.mk.injEq] at h
      rw [← h.1]
      exact List.mem_cons_self x xs
    | some pr =>
      obtain ⟨m, r⟩ := pr
      rw [h2] at h
      simp only [] at h
      by_cases hc : x.cost ≤ m.cost
      · rw [if_pos hc] at h
        simp only [Option.some.injEq, Prod.mk.injEq] at h
        rw [← h.1]
        exact List.mem_cons_self x xs
      · rw [if_neg hc] at h
        simp only [Option.some.injEq, Prod.mk.injEq] at h
        rw [← h.1]
        exact List.mem_cons_of_mem x (ih h2)

theorem popMin_min {q : List PathState} {cur : PathState} {rest : List PathState}
    (h : popMin q = some (cur, rest)) : ∀ st ∈ q, cur.cost ≤ st.cost := by
  induction q generalizing cur rest with
  | nil => simp [popMin] at h
  | cons x xs ih =>
    unfold popMin at h
    cases h2 : popMin xs with
    | none =>
      have hxs : xs = [] := popMin_eq_none h2
      rw [h2] at h
      simp only [Option.some.injEq, Prod.mk.injEq] at h
      intro st hst
      subst hxs
      rcases List.mem_cons.mp hst with he | hm
      · rw [← h.1, he]
      · simp at hm
    | some pr =>
      obtain ⟨m, r⟩ := pr
      rw [h2] at h
      simp only [] at h
      by_cases hc : x.cost ≤ m.cost
      · rw [if_pos hc] at h
        simp only [Option.some.injEq, Prod.mk.injEq] at h
        intro st hst
        rw [← h.1]
        rcases List.mem_cons.mp hst with he | hm
        · rw [he]
        · exact le_trans hc (ih h2 st hm)
      · rw [if_neg hc] at h
        simp only [Option.some.injEq, Prod.mk.injEq] at h
        intro st hst
        rw [← h.1]
        rcases List.mem_cons.mp hst with he | hm
        · rw [he]
          omega
        · exact ih h2 st hm

theorem popMin_subset {q : List PathState} {cur : PathState} {rest : List PathState}
    (h : popMin q = some (cur, rest)) : ∀ st ∈ rest, st ∈ q := by
  induction q generalizing cur rest with
  | nil => simp [popMin] at h
  | cons x xs ih =>
    unfold popMin at h
    cases h2 : popMin xs with
    | none =>
      rw [h2] at h
      simp only [Option.some.injEq, Prod.mk.injEq] at h
      intro st hst
      rw [← h.2] at hst
      simp at hst
    | some pr =>
      obtain ⟨m, r⟩ := pr
      rw [h2] at h
      simp only [] at h
      by_cases hc : x.cost ≤ m.cost
      · rw [if_pos hc] at h
        simp only [Option.some.injEq, Prod.mk.injEq] at h
        intro st hst
        rw [← h.2] at hst
        exact List.mem_cons_of_mem x hst
      · rw [if_neg hc] at h
        simp only [Option.some.injEq, Prod.mk.injEq] at h
        intro st hst
        rw [← h.2] at hst
        rcases List.mem_cons.mp hst with he | hm
        · rw [he]
          exact List.mem_cons_self x xs
        · exact List.mem_cons_of_mem x (ih h2 st hm)

/-- Every state produced by `expand` extends the popped state by one
qualifying channel. -/
theorem expand_mem {g : Graph} {maxHops : Nat} {visited : List Nat} {cur st2 : PathState}
    (h : st2 ∈ expand g maxHops visited cur) :
    ∃ cid c, alookup g.channels cid = some c ∧ cur.capacity ≤ c.capacity
      ∧ cur.path.length < maxHops
      ∧ st2 = { node := (if c.source = cur.node then c.target else c.source), cost := calculate_path_cost g.channels cur.capacity (cur.path ++ [cid]), capacity := cur.capacity, path := cur.path ++ [cid] } := by
  unfold expand at h
  cases hn : alookup g.nodes cur.node with
  | none => rw [hn] at h; simp at h
  | some chans =>
    rw [hn] at h
    simp only [List.mem_flatten, List.mem_map] at h
    obtain ⟨l, ⟨cid, hcid, hl⟩, hst⟩ := h
    rw [← hl] at hst
    unfold expandChannel at hst
    cases hc : alookup g.channels cid with
    | none => rw [hc] at hst; simp at hst
    | some c =>
      rw [hc] at hst
      simp only [] at hst
      by_cases hcap : c.capacity < cur.capacity
      · rw [if_pos hcap] at hst
        simp at hst
      · rw [if_neg hcap] at hst
        by_cases hhops : maxHops ≤ cur.path.length
        · rw [if_pos hhops] at hst
          simp at hst
        · rw [if_neg hhops] at hst
          by_cases hvis : (if c.source = cur.node then c.target else c.source) ∈ visited
          · rw [if_pos hvis] at hst
            simp at hst
          · rw [if_neg hvis] at hst
            simp only [List.mem_singleton] at hst
            exact ⟨cid, c, hc, by omega, by omega, hst⟩

end PF

namespace PF

open Flashchain

theorem finish_ok {paths ps : List (List Nat)} (h : finish paths = .ok ps) : ps = paths := by
  unfold finish at h
  by_cases he : paths.isEmpty
  · rw [if_pos he] at h
    simp at h
  · rw [if_neg he] at h
    exact (Except.ok.inj h).symm

/-- Under the no-overflow hypotheses, the wrapped cost of a path of at
most `maxHops` channels is exact. -/
theorem exactCost {g : Graph} {amount maxHops : Nat}
    (hfee : ∀ pr ∈ g.channels, amount * pr.2.fee_rate < W)
    (htl10 : ∀ pr ∈ g.channels, pr.2.timelock_delta * 10 < W)
    (hbound : maxHops * msum (edgeCost amount) g.channels < W)
    {path : List Nat} (hlen : path.length ≤ maxHops) :
    calculate_path_cost g.channels amount path = trueCost g.channels amount path := by
  rw [calculate_path_cost_eq hfee htl10]
  apply Nat.mod_eq_of_lt
  calc trueCost g.channels amount path
      ≤ path.length * msum (edgeCost amount) g.channels := trueCost_le_mul path
    _ ≤ maxHops * msum (edgeCost amount) g.channels :=
        Nat.mul_le_mul_right _ hlen
    _ < W := hbound

/-- Main loop invariant: starting from a queue of well-formed states
whose costs are all at least `b`, with accumulated paths that are
well-formed, cost at most `b` each, sorted, and fewer than 3, the loop
returns at most 3 well-formed paths sorted by exact cost. -/
theorem loop_props (g : Graph) (target maxHops amount : Nat)
    (hfee : ∀ pr ∈ g.channels, amount * pr.2.fee_rate < W)
    (htl10 : ∀ pr ∈ g.channels, pr.2.timelock_delta * 10 < W)
    (hbound : maxHops * msum (edgeCost amount) g.channels < W) :
    ∀ (fuel : Nat) (visited : List Nat) (paths : List (List Nat)) (queue : List PathState) (b : Nat),
      (∀ st ∈ queue, st.capacity = amount ∧ st.path.length ≤ maxHops
        ∧ st.cost = calculate_path_cost g.channels amount st.path
        ∧ (∀ cid ∈ st.path, ∃ c, alookup g.channels cid = some c ∧ amount ≤ c.capacity)) →
      (∀ st ∈ queue, b ≤ st.cost) →
      (∀ p ∈ paths, p.length ≤ maxHops ∧ (∀ cid ∈ p, ∃ c, alookup g.channels cid = some c ∧ amount ≤ c.capacity)) →
      (∀ p ∈ paths, trueCost g.channels amount p ≤ b) →
      paths.Pairwise (fun p q => trueCost g.channels amount p ≤ trueCost g.channels amount q) →
      paths.length < 3 →
      ∀ ps, loop g target maxHops fuel visited paths queue = .ok ps →
        ps.length ≤ 3
        ∧ (∀ p ∈ ps, p.length ≤ maxHops ∧ (∀ cid ∈ p, ∃ c, alookup g.channels cid = some c ∧ amount ≤ c.capacity))
        ∧ ps.Pairwise (fun p q => trueCost g.channels amount p ≤ trueCost g.channels amount q) := by
  intro fuel
  induction fuel with
  | zero =>
    intro visited paths queue b hq hqb hp hpc hsort hlen ps hres
    simp only [loop] at hres
    have hpp := finish_ok hres
    subst hpp
    exact ⟨by omega, hp, hsort⟩
  | succ fuel ih =>
    intro visited paths queue b hq hqb hp hpc hsort hlen ps hres
    simp only [loop] at hres
    cases hpm : popMin queue with
    | none =>
      rw [hpm] at hres
      simp only [] at hres
      have hpp := finish_ok hres
      subst hpp
      exact ⟨by omega, hp, hsort⟩
    | some pr =>
      obtain ⟨cur, rest⟩ := pr
      rw [hpm] at hres
      simp only [] at hres
      obtain ⟨hcap, hlen2, hcost, hcaps⟩ := hq cur (popMin_mem hpm)
      have hexact : cur.cost = trueCost g.channels amount cur.path := by
        rw [hcost]
        exact exactCost hfee htl10 hbound hlen2
      have hbcur : b ≤ cur.cost := hqb cur (popMin_mem hpm)
      by_cases ht : cur.node = target
      · rw [if_pos ht] at hres
        have hp2 : ∀ p ∈ paths ++ [cur.path], p.length ≤ maxHops ∧ (∀ cid ∈ p, ∃ c, alookup g.channels cid = some c ∧ amount ≤ c.capacity) := by
          intro p hmem
          rcases List.mem_append.mp hmem with hold | hnew
          · exact hp p hold
          · rw [List.mem_singleton.mp hnew]
            exact ⟨hlen2, hcaps⟩
        have hsort2 : (paths ++ [cur.path]).Pairwise (fun p q => trueCost g.channels amount p ≤ trueCost g.channels amount q) := by
          rw [List.pairwise_append]
          refine ⟨hsort, List.pairwise_singleton _ _, ?_⟩
          intro p hpmem q hqmem
          rw [List.mem_singleton.mp hqmem, ← hexact]
          exact le_trans (hpc p hpmem) hbcur
        by_cases h3 : 3 ≤ (paths ++ [cur.path]).length
        · rw [if_pos h3] at hres
          have hpp := finish_ok hres
          subst hpp
          refine ⟨?_, hp2, hsort2⟩
          rw [List.length_append]
          simp only [List.length_singleton]
          omega
        · rw [if_neg h3] at hres
          refine ih visited (paths ++ [cur.path]) rest cur.cost ?_ ?_ hp2 ?_ hsort2 ?_ ps hres
          · intro st hst
            exact hq st (popMin_subset hpm st hst)
          · intro st hst
            exact popMin_min hpm st (popMin_subset hpm st hst)
          · intro p hmem
            rcases List.mem_append.mp hmem with hold | hnew
            · exact le_trans (hpc p hold) hbcur
            · rw [List.mem_singleton.mp hnew, ← hexact]
          · simp at h3 ⊢
            omega
      · rw [if_neg ht] at hres
        by_cases hv : cur.node ∈ visited
        · rw [if_pos hv] at hres
          refine ih visited paths rest b ?_ ?_ hp hpc hsort hlen ps hres
          · intro st hst
            exact hq st (popMin_subset hpm st hst)
          · intro st hst
            exact hqb st (popMin_subset hpm st hst)
        · rw [if_neg hv] at hres
          refine ih (cur.node :: visited) paths (rest ++ expand g maxHops (cur.node :: visited) cur) b ?_ ?_ hp hpc hsort hlen ps hres
          · intro st hst
            rcases List.mem_append.mp hst with hr | he
            · exact hq st (popMin_subset hpm st hr)
            · obtain ⟨cid, c, hc, hcapc, hhops, hst2⟩ := expand_mem he
              subst hst2
              dsimp only []
              rw [hcap]
              refine ⟨rfl, by rw [List.length_append]; simpa using hhops, rfl, ?_⟩
              intro cid2 hcid2
              rcases List.mem_append.mp hcid2 with hc2 | hc2
              · exact hcaps cid2 hc2
              · rw [List.mem_singleton.mp hc2]
                exact ⟨c, hc, by rw [← hcap]; exact hcapc⟩
          · intro st hst
            rcases List.mem_append.mp hst with hr | he
            · exact hqb st (popMin_subset hpm st hr)
            · obtain ⟨cid, c, hc, hcapc, hhops, hst2⟩ := expand_mem he
              subst hst2
              dsimp only []
              rw [hcap]
              have hlen3 : (cur.path ++ [cid]).length ≤ maxHops := by
                rw [List.length_append]
                simpa using hhops
              rw [exactCost hfee htl10 hbound hlen3, trueCost_append]
              calc b ≤ cur.cost := hbcur
                _ = trueCost g.channels amount cur.path := hexact
                _ ≤ trueCost g.channels amount cur.path + trueCost g.channels amount [cid] := Nat.le_add_right _ _

end PF

namespace PF

open Flashchain

/-- If no channel walk connects `source` to `target`, the loop (run
with no collected paths) always ends in `NoRoute`. -/
theorem loop_noroute (g : Graph) (source target maxHops : Nat)
    (hnp : ¬ ∃ p, Chain g.channels source p target) :
    ∀ (fuel : Nat) (visited : List Nat) (queue : List PathState),
      (∀ st ∈ queue, Chain g.channels source st.path st.node) →
      loop g target maxHops fuel visited [] queue = .error (.NoRoute "No valid paths found") := by
  intro fuel
  induction fuel with
  | zero =>
    intro visited queue hq
    simp only [loop]
    rfl
  | succ fuel ih =>
    intro visited queue hq
    simp only [loop]
    cases hpm : popMin queue with
    | none => rfl
    | some pr =>
      obtain ⟨cur, rest⟩ := pr
      simp only []
      by_cases ht : cur.node = target
      · exact absurd ⟨cur.path, ht ▸ hq cur (popMin_mem hpm)⟩ hnp
      · rw [if_neg ht]
        by_cases hv : cur.node ∈ visited
        · rw [if_pos hv]
          exact ih visited rest (fun st hst => hq st (popMin_subset hpm st hst))
        · rw [if_neg hv]
          apply ih
          intro st hst
          rcases List.mem_append.mp hst with hr | he
          · exact hq st (popMin_subset hpm st hr)
          · obtain ⟨cid, c, hc, -, -, hst2⟩ := expand_mem he
            subst hst2
            exact Chain.snoc (hq cur (popMin_mem hpm)) hc

end PF

/-- C9 (amended): with `hints = None` and no u64 overflow in the cost
arithmetic (`amount * fee_rate < 2^64` and `10 * timelock_delta < 2^64`
per channel, and `max_hops` times the total of all per-channel costs
below `2^64`; the reliability term is the truncation of
`1000 * (1 - reliability)`), `find_paths` returns at most 3 paths, each
within `policy.max_hops` hops and containing only channels of capacity
at least `amount`, sorted ascending by total cost
`amount*fee_rate/1_000_000 + 10*timelock_delta + reliability term`; and
when no channel walk connects source to target it returns `NoRoute`.
Without the no-overflow proviso the sorting clause fails (the cost
arithmetic wraps), see the counterexample. -/
theorem C9_find_paths_bounded_sorted (g : PF.Graph) (source target amount : Nat)
    (policy : PF.Policy) (fuel : Nat)
    (hfee : ∀ pr ∈ g.channels, amount * pr.2.fee_rate < PF.W)
    (htl10 : ∀ pr ∈ g.channels, pr.2.timelock_delta * 10 < PF.W)
    (hbound : policy.max_hops * msum (PF.edgeCost amount) g.channels < PF.W) :
    (∀ ps, PF.find_paths g source target amount policy fuel = .ok ps →
        ps.length ≤ 3
        ∧ (∀ p ∈ ps, p.length ≤ policy.max_hops
            ∧ ∀ cid ∈ p, ∃ c, alookup g.channels cid = some c ∧ amount ≤ c.capacity)
        ∧ ps.Pairwise (fun p q => PF.trueCost g.channels amount p ≤ PF.trueCost g.channels amount q))
    ∧ ((¬ ∃ p, PF.Chain g.channels source p target) →
        PF.find_paths g source target amount policy fuel = .error (.NoRoute "No valid paths found")) := by
  constructor
  · intro ps hres
    unfold PF.find_paths at hres
    refine PF.loop_props g target policy.max_hops amount hfee htl10 hbound fuel [] [] _ 0 ?_ ?_ ?_ ?_ ?_ ?_ ps hres
    · intro st hst
      rw [List.mem_singleton.mp hst]
      exact ⟨rfl, by simp, rfl, by simp⟩
    · intro st _
      exact Nat.zero_le _
    · intro p hmem
      simp at hmem
    · intro p hmem
      simp at hmem
    · exact List.Pairwise.nil
    · simp
  · intro hnp
    unfold PF.find_paths
    apply PF.loop_noroute g source target policy.max_hops hnp fuel []
    intro st hst
    rw [List.mem_singleton.mp hst]
    exact PF.Chain.nil

/-- The reliability cost of a perfectly reliable channel is zero. -/
theorem relCost_one : PF.relCost 1 = 0 := by
  unfold PF.relCost
  norm_num [show Rat.floor (0 : ℚ) = 0 from rfl]

/-- Counterexample to C9 as stated: channel 10 has
`timelock_delta = 2^63`, so its u64 timelock cost `2^63 * 10` wraps to
0 and the search returns the two direct paths ordered `[[10], [20]]`,
although by the claim's cost formula path `[20]` (cost 10) is strictly
cheaper than path `[10]` (cost `10 * 2^63`): the returned list is not
sorted ascending by that cost. -/
theorem C9_counterexample_overflow_unsorted :
    PF.find_paths Samples.g9 1 2 5 Samples.pol9 10 = .ok [[10], [20]]
      ∧ PF.trueCost Samples.g9.channels 5 [20] < PF.trueCost Samples.g9.channels 5 [10] := by
  constructor
  · simp [PF.find_paths, PF.loop, PF.popMin, PF.expand, PF.expandChannel, PF.finish,
      PF.calculate_path_cost, PF.calcFrom, PF.edgeCostW, relCost_one, PF.W,
      Samples.g9, Samples.pol9, Flashchain.alookup]
  · simp [PF.trueCost, PF.edgeCost, relCost_one, Samples.g9, Flashchain.alookup]

/-- Witness for C9 (amended): on the one-channel graph `g9w` the
no-overflow hypotheses hold and the theorem yields the guarantees for
the returned path list `[[30]]`. -/
theorem C9_find_paths_bounded_sorted_witness :
    ([[30]] : List (List Nat)).length ≤ 3
      ∧ (∀ p ∈ ([[30]] : List (List Nat)), p.length ≤ Samples.pol9.max_hops
          ∧ ∀ cid ∈ p, ∃ c, alookup Samples.g9w.channels cid = some c ∧ 5 ≤ c.capacity)
      ∧ ([[30]] : List (List Nat)).Pairwise
          (fun p q => PF.trueCost Samples.g9w.channels 5 p ≤ PF.trueCost Samples.g9w.channels 5 q) :=
  (C9_find_paths_bounded_sorted Samples.g9w 1 2 5 Samples.pol9 10
      (by intro pr hpr; simp [Samples.g9w] at hpr; subst hpr; simp [PF.W])
      (by intro pr hpr; simp [Samples.g9w] at hpr; subst hpr; norm_num [PF.W])
      (by simp [Samples.pol9, Samples.g9w, Flashchain.msum, PF.edgeCost, relCost_one]; norm_num [PF.W])).1
    [[30]]
    (by simp [PF.find_paths, PF.loop, PF.popMin, PF.expand, PF.expandChannel, PF.finish,
      PF.calculate_path_cost, PF.calcFrom, PF.edgeCostW, relCost_one, PF.W,
      Samples.g9w, Samples.pol9, Flashchain.alookup])
